import Mathlib

/-!
Shallow embedding of the PyLockyDecrypter encryption tool (`src/main.py`).

Python strings are modelled as Lean `String` (with helper operations that
mirror the Python ones at the character-list level), byte strings as
`List Nat`, and the filesystem as an explicit state threaded through each
operation.  Python exceptions become an explicit error type `PyExc`; a
`try`/`except` clause becomes a `match` on the `Except` result that
distinguishes the caught exception constructors from the remaining ones.
-/

set_option autoImplicit false

namespace PyLocky

/-- Bytes of a file, one `Nat` per byte-ish unit. -/
abbrev Bytes := List Nat

/-! ### Python string helpers (character-list semantics of `str` methods) -/

/-- Python `s.startswith(p)`: `p.data` is an initial segment of `s.data`. -/
def strStartsWith (s p : String) : Bool :=
  decide (s.data.take p.data.length = p.data)

/-- Python `s.endswith(p)`: `p.data` is a final segment of `s.data`. -/
def strEndsWith (s p : String) : Bool :=
  decide (s.data.drop (s.data.length - p.data.length) = p.data ∧ p.data.length ≤ s.data.length)

/-- Python slice `s[:-n]` (for `n > 0`): all but the last `n` characters. -/
def strDropLast (s : String) (n : Nat) : String :=
  String.mk (s.data.take (s.data.length - n))

/-- Encoded bytes of a string, `str.encode` modelled as code points. -/
def strBytes (s : String) : Bytes :=
  s.data.map Char.toNat

/-- Helper for Python `s.rfind(c)`: index of the last occurrence of `c`,
counting from `i` for the head of the list. -/
def rfindAux : List Char → Char → Nat → Option Nat
  | [], _, _ => none
  | x :: xs, c, i =>
    match rfindAux xs c (i + 1) with
    | some j => some j
    | none => if x = c then some i else none

/-- Python `s.split(c)` on a single-character separator. -/
def splitChar (c : Char) : List Char → List (List Char)
  | [] => [[]]
  | x :: xs =>
    let r := splitChar c xs
    if x = c then [] :: r
    else
      match r with
      | [] => [[x]]
      | h :: t => (x :: h) :: t

/-! ### Model of `os.path` (posixpath), the path library used by the source -/

/-- Model of `posixpath.isabs`. -/
def isabs (p : String) : Bool := strStartsWith p "/"

/-- Model of `posixpath.join` restricted to two arguments, as used in the
source: `join(a, b)` is `b` if `b` is absolute, else `a` plus `b` with a
separator inserted unless `a` is empty or already ends in one. -/
def path_join (a b : String) : String :=
  if strStartsWith b "/" then b
  else if a = "" ∨ strEndsWith a "/" then a ++ b
  else a ++ "/" ++ b

/-- Component-normalisation loop of `posixpath.normpath`: drops empty and
`.` components and resolves `..` against the accumulated prefix exactly as
CPython does. -/
def normComps (initialSlashes : Nat) : List (List Char) → List (List Char) → List (List Char)
  | acc, [] => acc
  | acc, comp :: rest =>
    if comp = [] ∨ comp = ['.'] then normComps initialSlashes acc rest
    else if comp ≠ ['.', '.'] ∨ (initialSlashes = 0 ∧ acc = []) ∨
        (acc ≠ [] ∧ acc.getLast? = some ['.', '.']) then
      normComps initialSlashes (acc ++ [comp]) rest
    else if acc ≠ [] then normComps initialSlashes acc.dropLast rest
    else normComps initialSlashes acc rest

/-- Model of `posixpath.normpath`. -/
def normpath (p : String) : String :=
  if p = "" then "."
  else
    let initialSlashes : Nat :=
      if strStartsWith p "/" then
        if strStartsWith p "//" ∧ ¬ strStartsWith p "///" then 2 else 1
      else 0
    let comps := splitChar '/' p.data
    let newComps := normComps initialSlashes [] comps
    let res := List.replicate initialSlashes '/' ++ List.intercalate ['/'] newComps
    if res = [] then "." else String.mk res

/-- Model of `posixpath.abspath`; the current working directory is passed
explicitly instead of read from the process. -/
def abspath (cwd p : String) : String :=
  if isabs p then normpath p else normpath (path_join cwd p)

/-- Model of `posixpath.dirname`: everything before the final slash, with
trailing separators stripped unless the head is all separators. -/
def dirname (p : String) : String :=
  let i : Nat := match rfindAux p.data '/' 0 with | some k => k + 1 | none => 0
  let head := p.data.take i
  if head ≠ [] ∧ head.any (fun c => c ≠ '/') then
    String.mk ((head.reverse.dropWhile (fun c => c = '/')).reverse)
  else String.mk head

/-- Model of `posixpath.splitext`: split at the last `.` that lies after the
last `/`, unless every character between them is a `.` (CPython's leading-dot
rule). -/
def splitext (p : String) : String × String :=
  let l := p.data
  let sepIdx : Option Nat := rfindAux l '/' 0
  match rfindAux l '.' 0 with
  | none => (p, "")
  | some d =>
    let base : Nat := match sepIdx with | some s1 => s1 + 1 | none => 0
    let sepOk : Bool := match sepIdx with | some s1 => decide (s1 < d) | none => true
    if sepOk then
      if ((l.drop base).take (d - base)).any (fun c => c ≠ '.') then
        (String.mk (l.take d), String.mk (l.drop d))
      else (p, "")
    else (p, "")

/-! ### Python exceptions occurring in the source -/

/-- The Python exception values the program can raise: the three caught
builtin kinds, `cryptography.fernet.InvalidToken`, and `ValueError` (raised
by the `Fernet` constructor on a malformed key). -/
inductive PyExc where
  | fileNotFoundError (msg : String)
  | keyError (msg : String)
  | ioError (msg : String)
  | invalidToken (msg : String)
  | valueError (msg : String)
deriving DecidableEq, Repr

/-! ### Model of the Fernet primitive

Modelled from the spec: the underlying authenticated-encryption primitive is
an external collaborator, "a black-box capability" whose output format is
"nonce + ciphertext + authentication tag, primitive-defined encoding".  We
model a token as the nonce, then a tag computed from key, nonce and payload,
then the payload; decryption re-derives the tag and fails closed when it
does not verify.  A key is "a fixed-format encoded string" that "must decode
to a valid key for the underlying primitive": the real primitive accepts
exactly the 44-character encodings of 32-byte keys, so validity is modelled
as having that fixed encoded length.  Following the real library, the
`Fernet` constructor raises `ValueError` on a key that fails to decode, and
`Fernet.decrypt` raises `InvalidToken` when the token does not authenticate.
-/

/-- Key material decodes for the primitive iff it has the fixed encoded length. -/
def fernetKeyValid (k : String) : Bool :=
  decide (k.data.length = 44)

/-- Authentication tag over key, nonce and payload. -/
def fernetTag (k : String) (nonce : Nat) (p : Bytes) : Nat :=
  (strBytes k).foldl (fun a b => a * 131 + b) 7 * 1009 + nonce * 31 +
    p.foldl (fun a b => a * 257 + b) 1

/-- Token layout: nonce, tag, payload. -/
def fernetEncryptBytes (k : String) (nonce : Nat) (p : Bytes) : Bytes :=
  nonce :: fernetTag k nonce p :: p

/-- Parse a token and verify its tag; `none` is an authentication failure. -/
def fernetDecryptBytes (k : String) (c : Bytes) : Option Bytes :=
  match c with
  | nonce :: tag :: p => if fernetTag k nonce p = tag then some p else none
  | _ => none

/-- The `Fernet(key)` constructor: `ValueError` when the key fails to decode. -/
def fernetInit (key : String) : Except PyExc Unit :=
  if fernetKeyValid key then Except.ok ()
  else Except.error (PyExc.valueError "Fernet key must be 32 url-safe base64-encoded bytes.")

/-- `fernet.encrypt(data)`: always succeeds once the object is constructed. -/
def fernetEncrypt (key : String) (nonce : Nat) (data : Bytes) : Except PyExc Bytes :=
  Except.ok (fernetEncryptBytes key nonce data)

/-- `fernet.decrypt(data)`: `InvalidToken` when the token does not verify. -/
def fernetDecrypt (key : String) (data : Bytes) : Except PyExc Bytes :=
  match fernetDecryptBytes key data with
  | some p => Except.ok p
  | none => Except.error (PyExc.invalidToken "")

/-! ### Filesystem state -/

/-- First-match association-list lookup over the write log. -/
def filesLookup : List (String × Bytes) → String → Option Bytes
  | [], _ => none
  | (k, v) :: rest, p => if k = p then some v else filesLookup rest p

/-- Filesystem state: regular files as a newest-first write log of
(path, contents) pairs, plus the set of directories. -/
structure FS where
  files : List (String × Bytes)
  dirs : List String
deriving DecidableEq, Repr

instance instDecEqExcept {ε α : Type} [DecidableEq ε] [DecidableEq α] :
    DecidableEq (Except ε α) := fun a b =>
  match a, b with
  | Except.error x, Except.error y =>
    if h : x = y then isTrue (by rw [h]) else isFalse (fun hc => h (Except.error.inj hc))
  | Except.ok x, Except.ok y =>
    if h : x = y then isTrue (by rw [h]) else isFalse (fun hc => h (Except.ok.inj hc))
  | Except.error x, Except.ok y => isFalse (fun hc => Except.noConfusion hc)
  | Except.ok x, Except.error y => isFalse (fun hc => Except.noConfusion hc)

/-- Contents of the file at `p`, if a regular file exists there. -/
def FS.read? (fs : FS) (p : String) : Option Bytes :=
  filesLookup fs.files p

/-- `open(p, "wb").write(b)`: record the new contents at `p`. -/
def FS.write (fs : FS) (p : String) (b : Bytes) : FS :=
  { fs with files := (p, b) :: fs.files }

/-- Whether `p` names a directory. -/
def FS.isDir (fs : FS) (p : String) : Bool :=
  decide (p ∈ fs.dirs)

/-- Model of `os.path.exists`: true for regular files and directories. -/
def FS.pathExists (fs : FS) (p : String) : Bool :=
  (fs.read? p).isSome || fs.isDir p

/-- `open(p, "rb").read()`: the contents, or `IsADirectoryError` (an
`OSError`, i.e. `IOError`) when `p` exists but is not a regular file. -/
def FS.readFile (fs : FS) (p : String) : Except PyExc Bytes :=
  match fs.read? p with
  | some b => Except.ok b
  | none => Except.error (PyExc.ioError s!"IsADirectoryError: {p}")

/-- Model of `os.makedirs(p, exist_ok=ok)`: creating an existing directory
errors with `FileExistsError` (an `OSError`) unless `exist_ok` is set. -/
def makedirs (fs : FS) (p : String) (existOk : Bool) : Except PyExc FS :=
  if fs.isDir p then
    if existOk then Except.ok fs else Except.error (PyExc.ioError s!"FileExistsError: {p}")
  else Except.ok { fs with dirs := p :: fs.dirs }

/-! ### `EncryptionTool` -/

/-- The cipher object: just the key string it holds. -/
structure EncryptionTool where
  key : String
deriving DecidableEq, Repr

/-- `EncryptionTool.__init__`: `self.key = key if key else Fernet.generate_key().decode()`.
The freshly generated random key material is passed in explicitly as
`generated`; `key` being `None` or empty (Python falsiness) selects it. -/
def EncryptionTool.init (key : Option String) (generated : String) : EncryptionTool :=
  match key with
  | some k => if k = "" then { key := generated } else { key := k }
  | none => { key := generated }

/-- `EncryptionTool.encrypt_file`: check existence, read the input, build the
`Fernet` object and encrypt inside a `try` whose `except InvalidToken` clause
re-raises as `KeyError`, then write to `output_file or file_name + ".rex"`.
Returns the updated filesystem and the output path actually written. -/
def EncryptionTool.encrypt_file (t : EncryptionTool) (nonce : Nat) (fs : FS)
    (file_name : String) (output_file : Option String) : Except PyExc (FS × String) :=
  if ¬ fs.pathExists file_name then
    Except.error (PyExc.fileNotFoundError s!"File not found: {file_name}")
  else
    match fs.readFile file_name with
    | Except.error e => Except.error e
    | Except.ok file_data =>
      let attempt : Except PyExc Bytes :=
        match fernetInit t.key with
        | Except.error e => Except.error e
        | Except.ok _ => fernetEncrypt t.key nonce file_data
      match attempt with
      | Except.error (PyExc.invalidToken m) => Except.error (PyExc.keyError ("Invalid key: " ++ m))
      | Except.error e => Except.error e
      | Except.ok encrypted_data =>
        let out := match output_file with
          | some o => if o = "" then file_name ++ ".rex" else o
          | none => file_name ++ ".rex"
        Except.ok (fs.write out encrypted_data, out)

/-- `EncryptionTool.decrypt_file`: check existence, read the input, build the
`Fernet` object and decrypt inside a `try` whose `except InvalidToken` clause
re-raises `InvalidToken` with an "Invalid key:" message, then write to
`output_file or os.path.splitext(file_name)[0]`. -/
def EncryptionTool.decrypt_file (t : EncryptionTool) (fs : FS)
    (file_name : String) (output_file : Option String) : Except PyExc (FS × String) :=
  if ¬ fs.pathExists file_name then
    Except.error (PyExc.fileNotFoundError s!"File not found: {file_name}")
  else
    match fs.readFile file_name with
    | Except.error e => Except.error e
    | Except.ok encrypted_data =>
      let attempt : Except PyExc Bytes :=
        match fernetInit t.key with
        | Except.error e => Except.error e
        | Except.ok _ => fernetDecrypt t.key encrypted_data
      match attempt with
      | Except.error (PyExc.invalidToken m) => Except.error (PyExc.invalidToken ("Invalid key: " ++ m))
      | Except.error e => Except.error e
      | Except.ok decrypted_data =>
        let out := match output_file with
          | some o => if o = "" then (splitext file_name).1 else o
          | none => (splitext file_name).1
        Except.ok (fs.write out decrypted_data, out)

/-! ### The four CLI commands

Each command body is the code inside its `try`; the trailing
`except (...)` clause is modelled by `renderEncrypt`/`renderDecrypt`: an
exception of one of the listed types is recovered and echoed as a message
(`handledError`), any other exception escapes the command and crashes the
process (`crashed`).  `typer.echo` output is not modelled beyond the
outcome.  `os.walk(directory)` is an external traversal whose order is
unspecified; its result is passed in explicitly as `walk`, a list of
(root, files-in-root) pairs. -/

/-- Outcome of running one command. -/
inductive CmdOutcome where
  | success
  | userError (msg : String)
  | handledError (e : PyExc)
  | crashed (e : PyExc)
deriving DecidableEq, Repr

/-- Which exceptions `except (FileNotFoundError, KeyError, IOError)` catches. -/
def catchesEncrypt : PyExc → Bool
  | PyExc.fileNotFoundError _ => true
  | PyExc.keyError _ => true
  | PyExc.ioError _ => true
  | _ => false

/-- Which exceptions `except (FileNotFoundError, KeyError, IOError, InvalidToken)` catches. -/
def catchesDecrypt : PyExc → Bool
  | PyExc.fileNotFoundError _ => true
  | PyExc.keyError _ => true
  | PyExc.ioError _ => true
  | PyExc.invalidToken _ => true
  | _ => false

/-- Boundary of the two encrypt commands: recover the caught kinds, let the
rest escape. -/
def renderEncrypt (e : PyExc) : CmdOutcome :=
  if catchesEncrypt e then CmdOutcome.handledError e else CmdOutcome.crashed e

/-- Boundary of the two decrypt commands: recover the caught kinds, let the
rest escape. -/
def renderDecrypt (e : PyExc) : CmdOutcome :=
  if catchesDecrypt e then CmdOutcome.handledError e else CmdOutcome.crashed e

/-- The `encrypt` command: fresh tool with a generated key, encrypt the one
file, then persist the key to `encryption_key.key`. -/
def encrypt (generated : String) (nonce : Nat) (fs : FS)
    (file_name : String) (output_file : Option String) : FS × CmdOutcome :=
  let tool := EncryptionTool.init none generated
  match tool.encrypt_file nonce fs file_name output_file with
  | Except.error e => (fs, renderEncrypt e)
  | Except.ok (fs1, _) =>
    (fs1.write "encryption_key.key" (strBytes tool.key), CmdOutcome.success)

/-- The `decrypt` command: a missing (or empty, Python falsiness) key is a
user-facing message and early return; otherwise decrypt the one file with
the supplied key.  No key file is ever written here. -/
def decrypt (fs : FS) (file_name : String) (output_file : Option String)
    (key : Option String) : FS × CmdOutcome :=
  match key with
  | none =>
    (fs, CmdOutcome.userError
      "Error: Decryption key is required. Please provide the key using the --key option.")
  | some k =>
    if k = "" then
      (fs, CmdOutcome.userError
        "Error: Decryption key is required. Please provide the key using the --key option.")
    else
      let tool := EncryptionTool.init (some k) k
      match tool.decrypt_file fs file_name output_file with
      | Except.error e => (fs, renderDecrypt e)
      | Except.ok (fs1, _) => (fs1, CmdOutcome.success)

/-- Flatten an `os.walk` result into the visited (root, file_name) pairs in
visit order, as produced by the source's two nested `for` loops. -/
def walkPairs (walk : List (String × List String)) : List (String × String) :=
  walk.flatMap (fun rf => rf.2.map (fun f => (rf.1, f)))

/-- Per-file output path inside `encrypted_folder` for the recursive encrypt
loop: the base name with `.rex` appended, flattened into the folder. -/
def encRecOutPath (encrypted_folder file_name : String) : String :=
  path_join encrypted_folder (file_name ++ ".rex")

/-- Per-file output path inside `decrypted_folder` for the recursive decrypt
loop: the base name with the trailing 4 characters (`.rex`) removed,
flattened into the folder. -/
def decRecOutPath (decrypted_folder file_name : String) : String :=
  path_join decrypted_folder (strDropLast file_name 4)

/-- Result of a recursive-encrypt loop: the filesystem reached, the next
fresh-nonce index, and the first exception if one was raised. -/
structure LoopRes where
  fs : FS
  idx : Nat
  err : Option PyExc
deriving DecidableEq, Repr

/-- The nested `for` loops of `encrypt_recursive`: visit each (root, file)
pair, skip files already ending in `.rex`, encrypt the rest into
`encrypted_folder`; the first exception aborts the loop. -/
def encryptLoop (tool : EncryptionTool) (nonces : Nat → Nat) (encrypted_folder : String) :
    List (String × String) → FS → Nat → LoopRes
  | [], fs, i => ⟨fs, i, none⟩
  | (root, file_name) :: rest, fs, i =>
    if strEndsWith file_name ".rex" = false then
      let file_path := path_join root file_name
      let output_file := encRecOutPath encrypted_folder file_name
      match tool.encrypt_file (nonces i) fs file_path (some output_file) with
      | Except.error e => ⟨fs, i, some e⟩
      | Except.ok (fs1, _) => encryptLoop tool nonces encrypted_folder rest fs1 (i + 1)
    else encryptLoop tool nonces encrypted_folder rest fs i

/-- The nested `for` loops of `decrypt_recursive`: visit each (root, file)
pair, decrypt only files ending in `.rex` into `decrypted_folder`; the first
exception aborts the loop. -/
def decryptLoop (tool : EncryptionTool) (decrypted_folder : String) :
    List (String × String) → FS → FS × Option PyExc
  | [], fs => (fs, none)
  | (root, file_name) :: rest, fs =>
    if strEndsWith file_name ".rex" then
      let file_path := path_join root file_name
      let output_file := decRecOutPath decrypted_folder file_name
      match tool.decrypt_file fs file_path (some output_file) with
      | Except.error e => (fs, some e)
      | Except.ok (fs1, _) => decryptLoop tool decrypted_folder rest fs1
    else decryptLoop tool decrypted_folder rest fs

/-- The `encrypt_recursive` command: fresh tool with a generated key, create
`Encrypted_data` next to the resolved directory, run the walk loop, and on
full success persist the key to `encryption_key.key`. -/
def encrypt_recursive (generated : String) (nonces : Nat → Nat) (cwd : String)
    (directory : String) (walk : List (String × List String)) (fs : FS) : FS × CmdOutcome :=
  let tool := EncryptionTool.init none generated
  let root_folder := dirname (abspath cwd directory)
  let encrypted_folder := path_join root_folder "Encrypted_data"
  match makedirs fs encrypted_folder true with
  | Except.error e => (fs, renderEncrypt e)
  | Except.ok fs1 =>
    match encryptLoop tool nonces encrypted_folder (walkPairs walk) fs1 0 with
    | ⟨fs2, _, some e⟩ => (fs2, renderEncrypt e)
    | ⟨fs2, _, none⟩ =>
      (fs2.write "encryption_key.key" (strBytes tool.key), CmdOutcome.success)

/-- The `decrypt_recursive` command: tool over the supplied key, create
`Decrypted_data` next to the resolved directory, run the walk loop.  No key
file is ever written here. -/
def decrypt_recursive (key : String) (generated : String) (cwd : String)
    (directory : String) (walk : List (String × List String)) (fs : FS) : FS × CmdOutcome :=
  let tool := EncryptionTool.init (some key) generated
  let root_folder := dirname (abspath cwd directory)
  let decrypted_folder := path_join root_folder "Decrypted_data"
  match makedirs fs decrypted_folder true with
  | Except.error e => (fs, renderDecrypt e)
  | Except.ok fs1 =>
    match decryptLoop tool decrypted_folder (walkPairs walk) fs1 with
    | (fs2, some e) => (fs2, renderDecrypt e)
    | (fs2, none) => (fs2, CmdOutcome.success)

/-! ### Helper lemmas: filesystem -/

theorem FS.read?_write_self (fs : FS) (p : String) (b : Bytes) :
    (fs.write p b).read? p = some b := by
  simp [FS.read?, FS.write, filesLookup]

theorem FS.read?_write_ne (fs : FS) (p q : String) (b : Bytes) (h : q ≠ p) :
    (fs.write p b).read? q = fs.read? q := by
  simp only [FS.read?, FS.write, filesLookup]
  exact if_neg fun h1 => h h1.symm

theorem FS.read?_isSome_write (fs : FS) (p q : String) (b : Bytes)
    (h : (fs.read? q).isSome = true) : ((fs.write p b).read? q).isSome = true := by
  by_cases hq : q = p
  · subst hq; simp [FS.read?_write_self]
  · rwa [FS.read?_write_ne fs p q b hq]

theorem FS.pathExists_of_read? (fs : FS) (p : String) (b : Bytes)
    (h : fs.read? p = some b) : fs.pathExists p = true := by
  simp [FS.pathExists, h]

theorem FS.readFile_of_read? (fs : FS) (p : String) (b : Bytes)
    (h : fs.read? p = some b) : fs.readFile p = Except.ok b := by
  simp [FS.readFile, h]

theorem makedirs_ok_files (fs fs' : FS) (p : String) (ok : Bool)
    (h : makedirs fs p ok = Except.ok fs') : fs'.files = fs.files := by
  unfold makedirs at h
  split at h
  · split at h
    · exact (Except.ok.injEq _ _ ▸ h : fs = fs') ▸ rfl
    · cases h
  · cases h; rfl

theorem makedirs_existOk_ok (fs : FS) (p : String) :
    ∃ fs', makedirs fs p true = Except.ok fs' ∧ fs'.files = fs.files ∧ fs'.isDir p = true := by
  unfold makedirs
  by_cases h : fs.isDir p
  · exact ⟨fs, by simp [h], rfl, h⟩
  · refine ⟨{ fs with dirs := p :: fs.dirs }, by simp [h], rfl, ?_⟩
    simp [FS.isDir]

theorem makedirs_idem (fs : FS) (p : String) (h : fs.isDir p = true) :
    makedirs fs p true = Except.ok fs := by
  simp [makedirs, h]

/-! ### Helper lemmas: the Fernet model -/

theorem fernetDecryptBytes_encryptBytes (k : String) (nonce : Nat) (p : Bytes) :
    fernetDecryptBytes k (fernetEncryptBytes k nonce p) = some p := by
  simp [fernetDecryptBytes, fernetEncryptBytes]

/-! ### Helper lemmas: shape of `encrypt_file` and `decrypt_file` -/

theorem encrypt_file_ok (t : EncryptionTool) (nonce : Nat) (fs : FS) (fn o : String)
    (data : Bytes)
    (hread : fs.read? fn = some data) (hk : fernetKeyValid t.key = true) (ho : o ≠ "") :
    t.encrypt_file nonce fs fn (some o)
      = Except.ok (fs.write o (fernetEncryptBytes t.key nonce data), o) := by
  simp [EncryptionTool.encrypt_file, FS.pathExists_of_read? fs fn data hread,
    FS.readFile_of_read? fs fn data hread, fernetInit, hk, fernetEncrypt, ho]

theorem encrypt_file_none_ok (t : EncryptionTool) (nonce : Nat) (fs : FS) (fn : String)
    (data : Bytes)
    (hread : fs.read? fn = some data) (hk : fernetKeyValid t.key = true) :
    t.encrypt_file nonce fs fn none
      = Except.ok (fs.write (fn ++ ".rex") (fernetEncryptBytes t.key nonce data), fn ++ ".rex") := by
  simp [EncryptionTool.encrypt_file, FS.pathExists_of_read? fs fn data hread,
    FS.readFile_of_read? fs fn data hread, fernetInit, hk, fernetEncrypt]

theorem decrypt_file_ok (t : EncryptionTool) (fs : FS) (fn o : String) (data p : Bytes)
    (hread : fs.read? fn = some data) (hk : fernetKeyValid t.key = true)
    (hdec : fernetDecryptBytes t.key data = some p) (ho : o ≠ "") :
    t.decrypt_file fs fn (some o) = Except.ok (fs.write o p, o) := by
  simp [EncryptionTool.decrypt_file, FS.pathExists_of_read? fs fn data hread,
    FS.readFile_of_read? fs fn data hread, fernetInit, hk, fernetDecrypt, hdec, ho]

theorem decrypt_file_none_ok (t : EncryptionTool) (fs : FS) (fn : String) (data p : Bytes)
    (hread : fs.read? fn = some data) (hk : fernetKeyValid t.key = true)
    (hdec : fernetDecryptBytes t.key data = some p) :
    t.decrypt_file fs fn none
      = Except.ok (fs.write (splitext fn).1 p, (splitext fn).1) := by
  simp [EncryptionTool.decrypt_file, FS.pathExists_of_read? fs fn data hread,
    FS.readFile_of_read? fs fn data hread, fernetInit, hk, fernetDecrypt, hdec]

theorem encrypt_file_ok_inv (t : EncryptionTool) (nonce : Nat) (fs : FS) (fn o : String)
    (r : FS × String) (ho : o ≠ "")
    (h : t.encrypt_file nonce fs fn (some o) = Except.ok r) :
    ∃ data, fs.read? fn = some data ∧ fernetKeyValid t.key = true ∧
      r = (fs.write o (fernetEncryptBytes t.key nonce data), o) := by
  unfold EncryptionTool.encrypt_file at h
  split at h
  · cases h
  · rename_i hex
    cases hread : fs.read? fn with
    | none => rw [show fs.readFile fn = Except.error (PyExc.ioError s!"IsADirectoryError: {fn}")
        from by simp [FS.readFile, hread]] at h; cases h
    | some data =>
      rw [FS.readFile_of_read? fs fn data hread] at h
      by_cases hk : fernetKeyValid t.key
      · refine ⟨data, rfl, hk, ?_⟩
        simp only [fernetInit, hk, if_pos, fernetEncrypt] at h
        simp only [ho, if_neg] at h
        cases h
        rfl
      · simp only [fernetInit, hk, Bool.false_eq_true, if_neg] at h
        cases h

theorem decrypt_file_ok_inv (t : EncryptionTool) (fs : FS) (fn o : String)
    (r : FS × String) (ho : o ≠ "")
    (h : t.decrypt_file fs fn (some o) = Except.ok r) :
    ∃ data p, fs.read? fn = some data ∧ fernetDecryptBytes t.key data = some p ∧
      r = (fs.write o p, o) := by
  unfold EncryptionTool.decrypt_file at h
  split at h
  · cases h
  · rename_i hex
    cases hread : fs.read? fn with
    | none => rw [show fs.readFile fn = Except.error (PyExc.ioError s!"IsADirectoryError: {fn}")
        from by simp [FS.readFile, hread]] at h; cases h
    | some data =>
      rw [FS.readFile_of_read? fs fn data hread] at h
      by_cases hk : fernetKeyValid t.key
      · cases hdec : fernetDecryptBytes t.key data with
        | none =>
          simp only [fernetInit, hk, if_pos, fernetDecrypt, hdec] at h
          cases h
        | some p =>
          refine ⟨data, p, rfl, hdec, ?_⟩
          simp only [fernetInit, hk, if_pos, fernetDecrypt, hdec] at h
          simp only [ho, if_neg] at h
          cases h
          rfl
      · simp only [fernetInit, hk, Bool.false_eq_true, if_neg] at h
        cases h

/-! ### Helper lemmas: strings and paths -/

theorem str_eq_empty_iff (s : String) : s = "" ↔ s.data = [] := by
  constructor
  · intro h; subst h; rfl
  · intro h; exact String.ext h

theorem strMk_data (s : String) : String.mk s.data = s := by
  cases s; rfl

theorem strEndsWith_append_self (a p : String) : strEndsWith (a ++ p) p = true := by
  simp only [strEndsWith, String.data_append, List.length_append, decide_eq_true_eq]
  constructor
  · rw [Nat.add_sub_cancel]
    exact List.drop_left a.data p.data
  · omega

theorem strEndsWith_append_left (a b p : String) (hlen : p.data.length ≤ b.data.length)
    (h : strEndsWith b p = true) : strEndsWith (a ++ b) p = true := by
  simp only [strEndsWith, decide_eq_true_eq] at h ⊢
  obtain ⟨h1, h2⟩ := h
  rw [String.data_append, List.length_append]
  constructor
  · have harith : a.data.length + b.data.length - p.data.length
        = a.data.length + (b.data.length - p.data.length) := by omega
    rw [harith, List.drop_append]
    exact h1
  · omega

theorem rex_len_le_append (fn : String) :
    (".rex" : String).data.length ≤ (fn ++ ".rex").data.length := by
  rw [String.data_append, List.length_append]
  omega

theorem strEndsWith_join_rex (folder fn : String) :
    strEndsWith (path_join folder (fn ++ ".rex")) ".rex" = true := by
  have hb : strEndsWith (fn ++ ".rex") ".rex" = true := strEndsWith_append_self fn ".rex"
  unfold path_join
  split
  · exact hb
  · split
    · exact strEndsWith_append_left folder _ _ (rex_len_le_append fn) hb
    · exact strEndsWith_append_left (folder ++ "/") _ _ (rex_len_le_append fn) hb

theorem ne_empty_of_startsWith_slash (s : String) (h : strStartsWith s "/" = true) :
    s ≠ "" := by
  intro he
  rw [he] at h
  exact absurd h (by decide)

theorem path_join_ne_empty_right (a b : String) (hb : b ≠ "") : path_join a b ≠ "" := by
  unfold path_join
  split
  · exact hb
  · split
    · intro h
      rw [str_eq_empty_iff, String.data_append, List.append_eq_nil] at h
      exact hb ((str_eq_empty_iff b).2 h.2)
    · intro h
      rw [str_eq_empty_iff, String.data_append, List.append_eq_nil] at h
      exact hb ((str_eq_empty_iff b).2 h.2)

theorem path_join_ne_empty_left (a b : String) (ha : a ≠ "") : path_join a b ≠ "" := by
  unfold path_join
  split
  · rename_i hb
    exact ne_empty_of_startsWith_slash b hb
  · split
    · intro h
      rw [str_eq_empty_iff, String.data_append, List.append_eq_nil] at h
      exact ha ((str_eq_empty_iff a).2 h.1)
    · intro h
      rw [str_eq_empty_iff, String.data_append, List.append_eq_nil] at h
      rw [String.data_append, List.append_eq_nil] at h
      exact ha ((str_eq_empty_iff a).2 h.1.1)

theorem strStartsWith_slash_append (a b : String) (h : strStartsWith a "/" = true) :
    strStartsWith (a ++ b) "/" = true := by
  have hs : ("/" : String).data = ['/'] := rfl
  simp only [strStartsWith, hs, List.length_cons, List.length_nil, decide_eq_true_eq] at h ⊢
  rw [String.data_append]
  cases ha : a.data with
  | nil => rw [ha] at h; cases h
  | cons c t =>
    rw [ha] at h
    rw [List.cons_append]
    simp only [List.take_succ_cons, List.take_zero] at h ⊢
    exact h

theorem path_join_startsWith_slash (a b : String) (ha : strStartsWith a "/" = true) :
    strStartsWith (path_join a b) "/" = true := by
  unfold path_join
  split
  · rename_i hb; exact hb
  · split
    · exact strStartsWith_slash_append a b ha
    · exact strStartsWith_slash_append (a ++ "/") b (strStartsWith_slash_append a "/" ha)

theorem ne_of_startsWith_slash (x y : String) (hx : strStartsWith x "/" = true)
    (hy : strStartsWith y "/" = false) : x ≠ y := by
  intro h
  subst h
  rw [hx] at hy
  cases hy

theorem strDropLast_append_rex (b : String) : strDropLast (b ++ ".rex") 4 = b := by
  unfold strDropLast
  rw [String.data_append]
  have h4 : (".rex" : String).data.length = 4 := rfl
  rw [List.length_append, h4, Nat.add_sub_cancel, List.take_left]

theorem appendRex_ne_empty (fn : String) : fn ++ ".rex" ≠ "" := by
  intro h
  rw [str_eq_empty_iff, String.data_append, List.append_eq_nil] at h
  exact absurd ((str_eq_empty_iff _).2 h.2) (by decide)

theorem ne_of_endsWith_rex (x y : String) (hx : strEndsWith x ".rex" = true)
    (hy : strEndsWith y ".rex" = false) : y ≠ x := by
  intro h
  subst h
  rw [hx] at hy
  cases hy

theorem encOut_ne_empty (f fn : String) : encRecOutPath f fn ≠ "" :=
  path_join_ne_empty_right f _ (appendRex_ne_empty fn)

theorem encOut_endsWith_rex (f fn : String) : strEndsWith (encRecOutPath f fn) ".rex" = true :=
  strEndsWith_join_rex f fn

theorem decOut_startsWith_slash (f fn : String) (hf : strStartsWith f "/" = true) :
    strStartsWith (decRecOutPath f fn) "/" = true :=
  path_join_startsWith_slash f _ hf

theorem decOut_ne_empty (f fn : String) (hf : strStartsWith f "/" = true) :
    decRecOutPath f fn ≠ "" :=
  path_join_ne_empty_left f _ (ne_empty_of_startsWith_slash f hf)

/-! ### Helper lemmas: the recursive walk loops -/

theorem encryptLoop_append_ok (t : EncryptionTool) (n : Nat → Nat) (f : String)
    (l1 l2 : List (String × String)) (fs fs' : FS) (i j : Nat)
    (h : encryptLoop t n f l1 fs i = ⟨fs', j, none⟩) :
    encryptLoop t n f (l1 ++ l2) fs i = encryptLoop t n f l2 fs' j := by
  induction l1 generalizing fs i with
  | nil =>
    simp only [encryptLoop, LoopRes.mk.injEq] at h
    rw [List.nil_append, h.1, h.2.1]
  | cons hd rest ih =>
    obtain ⟨r0, f0⟩ := hd
    rw [List.cons_append]
    simp only [encryptLoop] at h ⊢
    by_cases he : strEndsWith f0 ".rex" = false
    · rw [if_pos he] at h ⊢
      cases henc : t.encrypt_file (n i) fs (path_join r0 f0) (some (encRecOutPath f f0)) with
      | error e =>
        rw [henc] at h
        exact Option.noConfusion (congrArg LoopRes.err h)
      | ok pr =>
        obtain ⟨fs1, op⟩ := pr
        rw [henc] at h
        exact ih fs1 (i + 1) h
    · rw [if_neg he] at h ⊢
      exact ih fs i h

theorem encryptLoop_append_err (t : EncryptionTool) (n : Nat → Nat) (f : String)
    (l1 l2 : List (String × String)) (fs fs' : FS) (i j : Nat) (e : PyExc)
    (h : encryptLoop t n f l1 fs i = ⟨fs', j, some e⟩) :
    encryptLoop t n f (l1 ++ l2) fs i = ⟨fs', j, some e⟩ := by
  induction l1 generalizing fs i with
  | nil => simp only [encryptLoop, LoopRes.mk.injEq] at h; cases h.2.2
  | cons hd rest ih =>
    obtain ⟨r0, f0⟩ := hd
    rw [List.cons_append]
    simp only [encryptLoop] at h ⊢
    by_cases he : strEndsWith f0 ".rex" = false
    · rw [if_pos he] at h ⊢
      cases henc : t.encrypt_file (n i) fs (path_join r0 f0) (some (encRecOutPath f f0)) with
      | error e1 =>
        rw [henc] at h
        exact h
      | ok pr =>
        obtain ⟨fs1, op⟩ := pr
        rw [henc] at h
        exact ih fs1 (i + 1) h
    · rw [if_neg he] at h ⊢
      exact ih fs i h

theorem decryptLoop_append_ok (t : EncryptionTool) (f : String)
    (l1 l2 : List (String × String)) (fs fs' : FS)
    (h : decryptLoop t f l1 fs = (fs', none)) :
    decryptLoop t f (l1 ++ l2) fs = decryptLoop t f l2 fs' := by
  induction l1 generalizing fs with
  | nil =>
    simp only [decryptLoop, Prod.mk.injEq] at h
    rw [List.nil_append, h.1]
  | cons hd rest ih =>
    obtain ⟨r0, f0⟩ := hd
    rw [List.cons_append]
    simp only [decryptLoop] at h ⊢
    by_cases he : strEndsWith f0 ".rex" = true
    · rw [if_pos he] at h ⊢
      cases hdec : t.decrypt_file fs (path_join r0 f0) (some (decRecOutPath f f0)) with
      | error e =>
        rw [hdec] at h
        exact Option.noConfusion (congrArg Prod.snd h)
      | ok pr =>
        obtain ⟨fs1, op⟩ := pr
        rw [hdec] at h
        exact ih fs1 h
    · rw [if_neg he] at h ⊢
      exact ih fs h

theorem decryptLoop_append_err (t : EncryptionTool) (f : String)
    (l1 l2 : List (String × String)) (fs fs' : FS) (e : PyExc)
    (h : decryptLoop t f l1 fs = (fs', some e)) :
    decryptLoop t f (l1 ++ l2) fs = (fs', some e) := by
  induction l1 generalizing fs with
  | nil => simp only [decryptLoop, Prod.mk.injEq] at h; cases h.2
  | cons hd rest ih =>
    obtain ⟨r0, f0⟩ := hd
    rw [List.cons_append]
    simp only [decryptLoop] at h ⊢
    by_cases he : strEndsWith f0 ".rex" = true
    · rw [if_pos he] at h ⊢
      cases hdec : t.decrypt_file fs (path_join r0 f0) (some (decRecOutPath f f0)) with
      | error e1 =>
        rw [hdec] at h
        exact h
      | ok pr =>
        obtain ⟨fs1, op⟩ := pr
        rw [hdec] at h
        exact ih fs1 h
    · rw [if_neg he] at h ⊢
      exact ih fs h

theorem encryptLoop_read?_preserved (t : EncryptionTool) (n : Nat → Nat) (f : String)
    (pairs : List (String × String)) (fs : FS) (i : Nat) (q : String)
    (hq : strEndsWith q ".rex" = false) :
    (encryptLoop t n f pairs fs i).fs.read? q = fs.read? q := by
  induction pairs generalizing fs i with
  | nil => rfl
  | cons hd rest ih =>
    obtain ⟨r0, f0⟩ := hd
    simp only [encryptLoop]
    by_cases he : strEndsWith f0 ".rex" = false
    · rw [if_pos he]
      cases henc : t.encrypt_file (n i) fs (path_join r0 f0) (some (encRecOutPath f f0)) with
      | error e => rfl
      | ok pr =>
        obtain ⟨fs1, op⟩ := pr
        obtain ⟨data, hread, hk, hr⟩ := encrypt_file_ok_inv t (n i) fs (path_join r0 f0)
          (encRecOutPath f f0) (fs1, op) (encOut_ne_empty f f0) henc
        have hfs1 : fs1 = fs.write (encRecOutPath f f0) (fernetEncryptBytes t.key (n i) data) :=
          congrArg Prod.fst hr
        exact (ih fs1 (i + 1)).trans (by
          rw [hfs1]
          exact FS.read?_write_ne fs _ q _
            (ne_of_endsWith_rex _ q (encOut_endsWith_rex f f0) hq))
    · rw [if_neg he]
      exact ih fs i


theorem encryptLoop_read?_isSome (t : EncryptionTool) (n : Nat → Nat) (f : String)
    (pairs : List (String × String)) (fs : FS) (i : Nat) (q : String)
    (h : (fs.read? q).isSome = true) :
    ((encryptLoop t n f pairs fs i).fs.read? q).isSome = true := by
  induction pairs generalizing fs i with
  | nil => exact h
  | cons hd rest ih =>
    obtain ⟨r0, f0⟩ := hd
    simp only [encryptLoop]
    by_cases he : strEndsWith f0 ".rex" = false
    · rw [if_pos he]
      cases henc : t.encrypt_file (n i) fs (path_join r0 f0) (some (encRecOutPath f f0)) with
      | error e => exact h
      | ok pr =>
        obtain ⟨fs1, op⟩ := pr
        obtain ⟨data, hread, hk, hr⟩ := encrypt_file_ok_inv t (n i) fs (path_join r0 f0)
          (encRecOutPath f f0) (fs1, op) (encOut_ne_empty f f0) henc
        have hfs1 : fs1 = fs.write (encRecOutPath f f0) (fernetEncryptBytes t.key (n i) data) :=
          congrArg Prod.fst hr
        exact ih fs1 (i + 1) (by rw [hfs1]; exact FS.read?_isSome_write fs _ q _ h)
    · rw [if_neg he]
      exact ih fs i h

theorem encryptLoop_outputs_present (t : EncryptionTool) (n : Nat → Nat) (f : String)
    (pairs : List (String × String)) (fs fs' : FS) (i j : Nat)
    (h : encryptLoop t n f pairs fs i = ⟨fs', j, none⟩) (root fn : String)
    (hmem : (root, fn) ∈ pairs) (helig : strEndsWith fn ".rex" = false) :
    (fs'.read? (encRecOutPath f fn)).isSome = true := by
  induction pairs generalizing fs i with
  | nil => cases hmem
  | cons hd rest ih =>
    obtain ⟨r0, f0⟩ := hd
    simp only [encryptLoop] at h
    rcases List.mem_cons.1 hmem with heq | hmem2
    · cases heq
      rw [if_pos helig] at h
      cases henc : t.encrypt_file (n i) fs (path_join root fn) (some (encRecOutPath f fn)) with
      | error e =>
        rw [henc] at h
        exact Option.noConfusion (congrArg LoopRes.err h)
      | ok pr =>
        obtain ⟨fs1, op⟩ := pr
        rw [henc] at h
        obtain ⟨data, hread, hk, hr⟩ := encrypt_file_ok_inv t (n i) fs (path_join root fn)
          (encRecOutPath f fn) (fs1, op) (encOut_ne_empty f fn) henc
        have hfs1 : fs1 = fs.write (encRecOutPath f fn) (fernetEncryptBytes t.key (n i) data) :=
          congrArg Prod.fst hr
        have hpres : (fs1.read? (encRecOutPath f fn)).isSome = true := by
          rw [hfs1, FS.read?_write_self]
          rfl
        have h2 : encryptLoop t n f rest fs1 (i + 1)
            = ({ fs := fs', idx := j, err := none } : LoopRes) := h
        have hall := encryptLoop_read?_isSome t n f rest fs1 (i + 1) (encRecOutPath f fn) hpres
        rw [h2] at hall
        exact hall
    · by_cases he : strEndsWith f0 ".rex" = false
      · rw [if_pos he] at h
        cases henc : t.encrypt_file (n i) fs (path_join r0 f0) (some (encRecOutPath f f0)) with
        | error e =>
          rw [henc] at h
          exact Option.noConfusion (congrArg LoopRes.err h)
        | ok pr =>
          obtain ⟨fs1, op⟩ := pr
          rw [henc] at h
          exact ih fs1 (i + 1) h hmem2
      · rw [if_neg he] at h
        exact ih fs i h hmem2

theorem decryptLoop_read?_preserved (t : EncryptionTool) (f : String)
    (pairs : List (String × String)) (fs : FS) (q : String)
    (hf : strStartsWith f "/" = true) (hq : strStartsWith q "/" = false) :
    (decryptLoop t f pairs fs).1.read? q = fs.read? q := by
  induction pairs generalizing fs with
  | nil => rfl
  | cons hd rest ih =>
    obtain ⟨r0, f0⟩ := hd
    simp only [decryptLoop]
    by_cases he : strEndsWith f0 ".rex" = true
    · rw [if_pos he]
      cases hdec : t.decrypt_file fs (path_join r0 f0) (some (decRecOutPath f f0)) with
      | error e => rfl
      | ok pr =>
        obtain ⟨fs1, op⟩ := pr
        obtain ⟨data, p, hread, hdb, hr⟩ := decrypt_file_ok_inv t fs (path_join r0 f0)
          (decRecOutPath f f0) (fs1, op) (decOut_ne_empty f f0 hf) hdec
        have hfs1 : fs1 = fs.write (decRecOutPath f f0) p := congrArg Prod.fst hr
        exact (ih fs1).trans (by
          rw [hfs1]
          exact FS.read?_write_ne fs _ q _
            (Ne.symm (ne_of_startsWith_slash _ q (decOut_startsWith_slash f f0 hf) hq)))
    · rw [if_neg he]
      exact ih fs

theorem decryptLoop_read?_isSome (t : EncryptionTool) (f : String)
    (pairs : List (String × String)) (fs : FS) (q : String)
    (hf : strStartsWith f "/" = true)
    (h : (fs.read? q).isSome = true) :
    ((decryptLoop t f pairs fs).1.read? q).isSome = true := by
  induction pairs generalizing fs with
  | nil => exact h
  | cons hd rest ih =>
    obtain ⟨r0, f0⟩ := hd
    simp only [decryptLoop]
    by_cases he : strEndsWith f0 ".rex" = true
    · rw [if_pos he]
      cases hdec : t.decrypt_file fs (path_join r0 f0) (some (decRecOutPath f f0)) with
      | error e => exact h
      | ok pr =>
        obtain ⟨fs1, op⟩ := pr
        obtain ⟨data, p, hread, hdb, hr⟩ := decrypt_file_ok_inv t fs (path_join r0 f0)
          (decRecOutPath f f0) (fs1, op) (decOut_ne_empty f f0 hf) hdec
        have hfs1 : fs1 = fs.write (decRecOutPath f f0) p := congrArg Prod.fst hr
        exact ih fs1 (by rw [hfs1]; exact FS.read?_isSome_write fs _ q _ h)
    · rw [if_neg he]
      exact ih fs h

theorem decryptLoop_outputs_present (t : EncryptionTool) (f : String)
    (pairs : List (String × String)) (fs fs' : FS)
    (hf : strStartsWith f "/" = true)
    (h : decryptLoop t f pairs fs = (fs', none)) (root fn : String)
    (hmem : (root, fn) ∈ pairs) (helig : strEndsWith fn ".rex" = true) :
    (fs'.read? (decRecOutPath f fn)).isSome = true := by
  induction pairs generalizing fs with
  | nil => cases hmem
  | cons hd rest ih =>
    obtain ⟨r0, f0⟩ := hd
    simp only [decryptLoop] at h
    rcases List.mem_cons.1 hmem with heq | hmem2
    · cases heq
      rw [if_pos helig] at h
      cases hdec : t.decrypt_file fs (path_join root fn) (some (decRecOutPath f fn)) with
      | error e =>
        rw [hdec] at h
        exact Option.noConfusion (congrArg Prod.snd h)
      | ok pr =>
        obtain ⟨fs1, op⟩ := pr
        rw [hdec] at h
        obtain ⟨data, p, hread, hdb, hr⟩ := decrypt_file_ok_inv t fs (path_join root fn)
          (decRecOutPath f fn) (fs1, op) (decOut_ne_empty f fn hf) hdec
        have hfs1 : fs1 = fs.write (decRecOutPath f fn) p := congrArg Prod.fst hr
        have hpres : (fs1.read? (decRecOutPath f fn)).isSome = true := by
          rw [hfs1, FS.read?_write_self]
          rfl
        have h2 : decryptLoop t f rest fs1 = (fs', (none : Option PyExc)) := h
        have hall := decryptLoop_read?_isSome t f rest fs1 (decRecOutPath f fn) hf hpres
        rw [h2] at hall
        exact hall
    · by_cases he : strEndsWith f0 ".rex" = true
      · rw [if_pos he] at h
        cases hdec : t.decrypt_file fs (path_join r0 f0) (some (decRecOutPath f f0)) with
        | error e =>
          rw [hdec] at h
          exact Option.noConfusion (congrArg Prod.snd h)
        | ok pr =>
          obtain ⟨fs1, op⟩ := pr
          rw [hdec] at h
          exact ih fs1 h hmem2
      · rw [if_neg he] at h
        exact ih fs h hmem2

/-! ### Helper lemmas: `rfind`, `splitext` and `dirname` -/

theorem rfindAux_of_not_mem (l : List Char) (c : Char) (i : Nat) (h : c ∉ l) :
    rfindAux l c i = none := by
  induction l generalizing i with
  | nil => rfl
  | cons x xs ih =>
    simp only [rfindAux]
    rw [ih (i + 1) (fun hm => h (List.mem_cons_of_mem x hm))]
    exact if_neg (fun he => h (by rw [he]; exact List.mem_cons_self c xs))

theorem rfindAux_append (l1 l2 : List Char) (c : Char) (i : Nat) :
    rfindAux (l1 ++ l2) c i =
      match rfindAux l2 c (i + l1.length) with
      | some j => some j
      | none => rfindAux l1 c i := by
  induction l1 generalizing i with
  | nil =>
    simp only [List.nil_append, List.length_nil, Nat.add_zero, rfindAux]
    cases rfindAux l2 c i with
    | some j => rfl
    | none => rfl
  | cons x xs ih =>
    simp only [List.cons_append, rfindAux, List.length_cons, List.append_eq]
    rw [ih (i + 1)]
    have harith : i + 1 + xs.length = i + (xs.length + 1) := by omega
    rw [harith]
    cases rfindAux l2 c (i + (xs.length + 1)) with
    | some j => rfl
    | none => rfl

theorem rfindAux_bounds (l : List Char) (c : Char) (i j : Nat)
    (h : rfindAux l c i = some j) : i ≤ j ∧ j < i + l.length := by
  induction l generalizing i with
  | nil => cases h
  | cons x xs ih =>
    simp only [rfindAux] at h
    cases hr : rfindAux xs c (i + 1) with
    | some j1 =>
      rw [hr] at h
      cases h
      obtain ⟨h1, h2⟩ := ih (i + 1) hr
      simp only [List.length_cons]
      omega
    | none =>
      rw [hr] at h
      by_cases hx : x = c
      · rw [if_pos hx] at h
        cases h
        simp only [List.length_cons]
        omega
      · rw [if_neg hx] at h
        cases h

theorem rfindAux_char (l : List Char) (c : Char) (i j : Nat)
    (h : rfindAux l c i = some j) : l[j - i]? = some c := by
  induction l generalizing i with
  | nil => cases h
  | cons x xs ih =>
    simp only [rfindAux] at h
    cases hr : rfindAux xs c (i + 1) with
    | some j1 =>
      rw [hr] at h
      cases h
      obtain ⟨hb1, hb2⟩ := rfindAux_bounds xs c (i + 1) j hr
      have hch := ih (i + 1) hr
      have hj : j - i = j - (i + 1) + 1 := by omega
      rw [hj]
      simpa using hch
    | none =>
      rw [hr] at h
      by_cases hx : x = c
      · rw [if_pos hx] at h
        cases h
        simp [Nat.sub_self, hx]
      · rw [if_neg hx] at h
        cases h

theorem strStartsWith_slash_false_of_not_mem (name : String) (h : ('/' : Char) ∉ name.data) :
    strStartsWith name "/" = false := by
  have hs : ("/" : String).data = ['/'] := rfl
  simp only [strStartsWith, hs, List.length_cons, List.length_nil, decide_eq_false_iff_not]
  cases hn : name.data with
  | nil => simp
  | cons c t =>
    simp only [List.take_succ_cons, List.take_zero]
    intro he
    apply h
    rw [hn]
    have hc : c = '/' := by injection he
    rw [hc]
    exact List.mem_cons_self _ _

theorem splitext_append_rex (s : String) (c : Char)
    (hlast : s.data[s.data.length - 1]? = some c) (hc1 : c ≠ '/') (hc2 : c ≠ '.') :
    splitext (s ++ ".rex") = (s, ".rex") := by
  have hrex : (".rex" : String).data = ['.', 'r', 'e', 'x'] := rfl
  have hlen : 1 ≤ s.data.length := by
    rcases Nat.eq_zero_or_pos s.data.length with h0 | h1
    · rw [List.length_eq_zero.mp h0] at hlast
      cases hlast
    · exact h1
  have hmem : c ∈ s.data := List.getElem?_mem hlast
  have hdot : rfindAux (s.data ++ ['.', 'r', 'e', 'x']) '.' 0 = some s.data.length := by
    rw [rfindAux_append]
    have h2 : rfindAux ['.', 'r', 'e', 'x'] '.' (0 + s.data.length) = some (0 + s.data.length) := by
      show (match rfindAux ['r', 'e', 'x'] '.' (0 + s.data.length + 1) with
        | some j => some j
        | none => if '.' = '.' then some (0 + s.data.length) else none) = some (0 + s.data.length)
      rw [rfindAux_of_not_mem ['r', 'e', 'x'] '.' (0 + s.data.length + 1) (by decide)]
      rw [if_pos rfl]
    rw [h2]
    show some (0 + s.data.length) = some s.data.length
    rw [Nat.zero_add]
  have hsep : rfindAux (s.data ++ ['.', 'r', 'e', 'x']) '/' 0 = rfindAux s.data '/' 0 := by
    rw [rfindAux_append]
    rw [rfindAux_of_not_mem ['.', 'r', 'e', 'x'] '/' (0 + s.data.length) (by decide)]
  have hsplit : (s ++ ".rex").data = s.data ++ ['.', 'r', 'e', 'x'] := by
    rw [String.data_append, hrex]
  simp only [splitext, hsplit, hdot, hsep]
  cases hv : rfindAux s.data '/' 0 with
  | none =>
    simp only []
    rw [if_pos trivial]
    have hany : ((s.data ++ ['.', 'r', 'e', 'x']).take s.data.length).any
        (fun x => decide (x ≠ '.')) = true := by
      rw [List.take_left]
      exact List.any_eq_true.2 ⟨c, hmem, by simp [hc2]⟩
    rw [List.drop_zero, Nat.sub_zero, if_pos hany]
    rw [List.take_left, List.drop_left]
  | some v =>
    obtain ⟨hb1, hb2⟩ := rfindAux_bounds s.data '/' 0 v hv
    have hch : s.data[v]? = some '/' := by
      have hv2 := rfindAux_char s.data '/' 0 v hv
      simpa using hv2
    have hvne : v ≠ s.data.length - 1 := by
      intro he
      rw [he, hlast] at hch
      exact hc1 (Option.some.inj hch)
    have hvlt : v + 1 ≤ s.data.length - 1 := by omega
    simp only []
    rw [if_pos (show decide (v < s.data.length) = true from by
      simp only [decide_eq_true_eq]
      omega)]
    have hany : (((s.data ++ ['.', 'r', 'e', 'x']).drop (v + 1)).take
        (s.data.length - (v + 1))).any (fun x => decide (x ≠ '.')) = true := by
      have hidx : (((s.data ++ ['.', 'r', 'e', 'x']).drop (v + 1)).take
          (s.data.length - (v + 1)))[s.data.length - 1 - (v + 1)]? = some c := by
        rw [List.getElem?_take]
        rw [if_pos (show s.data.length - 1 - (v + 1) < s.data.length - (v + 1) by omega)]
        rw [List.getElem?_drop]
        have harr : v + 1 + (s.data.length - 1 - (v + 1)) = s.data.length - 1 := by omega
        rw [harr]
        rw [List.getElem?_append]
        rw [if_pos (show s.data.length - 1 < s.data.length by omega)]
        exact hlast
      exact List.any_eq_true.2 ⟨c, List.getElem?_mem hidx, by simp [hc2]⟩
    rw [if_pos hany]
    rw [List.take_left, List.drop_left]

theorem dirname_path_join (d name : String)
    (hnm : ('/' : Char) ∉ name.data)
    (hd1 : d.data.any (fun c => decide (c ≠ '/')) = true) (hd2 : strEndsWith d "/" = false) :
    dirname (path_join d name) = d := by
  have hdne : d ≠ "" := by
    intro he
    rw [he] at hd1
    exact absurd hd1 (by decide)
  have h1 : strStartsWith name "/" = false := strStartsWith_slash_false_of_not_mem name hnm
  have hjoin : path_join d name = d ++ "/" ++ name := by
    unfold path_join
    rw [if_neg (fun hc => Bool.false_ne_true (h1.symm.trans hc))]
    rw [if_neg (fun hor => hor.elim hdne (fun hc => Bool.false_ne_true (hd2.symm.trans hc)))]
  have hdata : (d ++ "/" ++ name).data = (d.data ++ ['/']) ++ name.data := by
    rw [String.data_append, String.data_append]
  have hlen1 : (d.data ++ ['/']).length = d.data.length + 1 := by
    rw [List.length_append]
    rfl
  have hrf : rfindAux ((d.data ++ ['/']) ++ name.data) '/' 0 = some d.data.length := by
    rw [rfindAux_append]
    rw [rfindAux_of_not_mem name.data '/' (0 + (d.data ++ ['/']).length) hnm]
    rw [rfindAux_append]
    have h2 : rfindAux ['/'] '/' (0 + d.data.length) = some (0 + d.data.length) := rfl
    rw [h2]
    show some (0 + d.data.length) = some d.data.length
    rw [Nat.zero_add]
  rw [hjoin]
  simp only [dirname, hdata, hrf]
  rw [List.take_left' (by rw [hlen1])]
  rw [if_pos ?side]
  case side =>
    constructor
    · simp
    · rw [List.any_append, hd1]
      rfl
  rw [List.reverse_append, List.reverse_singleton, List.singleton_append]
  rw [@List.dropWhile_cons_of_pos Char (fun c => decide (c = '/')) '/' d.data.reverse (by decide)]
  cases hrev : d.data.reverse with
  | nil =>
    exact absurd (List.reverse_eq_nil_iff.mp hrev) (fun he => hdne ((str_eq_empty_iff d).2 he))
  | cons c0 rest =>
    have hd : d.data = rest.reverse ++ [c0] := by
      have hge := congrArg List.reverse hrev
      rw [List.reverse_reverse, List.reverse_cons] at hge
      exact hge
    have hlend : d.data.length = rest.length + 1 := by
      rw [hd, List.length_append, List.length_reverse]
      rfl
    have hc0 : ¬((fun c => decide (c = '/')) c0 = true) := by
      simp only [decide_eq_true_eq]
      intro he
      have hdrop : d.data.drop (d.data.length - ("/" : String).data.length) = ['/'] := by
        have hslen : ("/" : String).data.length = 1 := rfl
        rw [hslen, hlend, Nat.add_sub_cancel, hd]
        rw [List.drop_left' (by rw [List.length_reverse])]
        rw [he]
      have hle : ("/" : String).data.length ≤ d.data.length := by
        have hslen : ("/" : String).data.length = 1 := rfl
        rw [hslen, hlend]
        omega
      have hets : strEndsWith d "/" = true := decide_eq_true ⟨hdrop, hle⟩
      exact Bool.false_ne_true (hd2.symm.trans hets)
    rw [@List.dropWhile_cons_of_neg Char (fun c => decide (c = '/')) c0 rest hc0]
    rw [← hrev, List.reverse_reverse]

theorem encrypt_file_invalid_key (t : EncryptionTool) (nonce : Nat) (fs : FS) (fn : String)
    (o : Option String) (data : Bytes)
    (hread : fs.read? fn = some data) (hk : fernetKeyValid t.key = false) :
    t.encrypt_file nonce fs fn o
      = Except.error (PyExc.valueError "Fernet key must be 32 url-safe base64-encoded bytes.") := by
  simp [EncryptionTool.encrypt_file, FS.pathExists_of_read? fs fn data hread,
    FS.readFile_of_read? fs fn data hread, fernetInit, hk]

theorem decrypt_file_invalid_key (t : EncryptionTool) (fs : FS) (fn : String)
    (o : Option String) (data : Bytes)
    (hread : fs.read? fn = some data) (hk : fernetKeyValid t.key = false) :
    t.decrypt_file fs fn o
      = Except.error (PyExc.valueError "Fernet key must be 32 url-safe base64-encoded bytes.") := by
  simp [EncryptionTool.decrypt_file, FS.pathExists_of_read? fs fn data hread,
    FS.readFile_of_read? fs fn data hread, fernetInit, hk]

theorem decrypt_file_auth_fail (t : EncryptionTool) (fs : FS) (fn : String)
    (o : Option String) (data : Bytes)
    (hread : fs.read? fn = some data) (hk : fernetKeyValid t.key = true)
    (hdec : fernetDecryptBytes t.key data = none) :
    t.decrypt_file fs fn o = Except.error (PyExc.invalidToken "Invalid key: ") := by
  simp [EncryptionTool.decrypt_file, FS.pathExists_of_read? fs fn data hread,
    FS.readFile_of_read? fs fn data hread, fernetInit, hk, fernetDecrypt, hdec]

theorem encrypt_file_ok_inv2 (t : EncryptionTool) (nonce : Nat) (fs : FS) (fn : String)
    (o : Option String) (fs1 : FS) (outP : String)
    (h : t.encrypt_file nonce fs fn o = Except.ok (fs1, outP)) :
    ∃ data, fs.read? fn = some data
      ∧ fs1 = fs.write outP (fernetEncryptBytes t.key nonce data) := by
  unfold EncryptionTool.encrypt_file at h
  split at h
  · cases h
  · cases hread : fs.read? fn with
    | none => rw [show fs.readFile fn = Except.error (PyExc.ioError s!"IsADirectoryError: {fn}")
        from by simp [FS.readFile, hread]] at h; cases h
    | some data =>
      rw [FS.readFile_of_read? fs fn data hread] at h
      by_cases hk : fernetKeyValid t.key
      · refine ⟨data, rfl, ?_⟩
        simp only [fernetInit, hk, if_pos, fernetEncrypt] at h
        cases o with
        | none =>
          simp only [] at h
          cases h
          rfl
        | some ov =>
          by_cases hov : ov = ""
          · simp only [hov, if_pos] at h
            cases h
            rfl
          · simp only [hov, if_neg] at h
            cases h
            rfl
      · simp only [fernetInit, hk, Bool.false_eq_true, if_neg] at h
        cases h

theorem decrypt_file_ok_inv2 (t : EncryptionTool) (fs : FS) (fn : String)
    (o : Option String) (fs1 : FS) (outP : String)
    (h : t.decrypt_file fs fn o = Except.ok (fs1, outP)) :
    ∃ p, fs1 = fs.write outP p := by
  unfold EncryptionTool.decrypt_file at h
  split at h
  · cases h
  · cases hread : fs.read? fn with
    | none => rw [show fs.readFile fn = Except.error (PyExc.ioError s!"IsADirectoryError: {fn}")
        from by simp [FS.readFile, hread]] at h; cases h
    | some data =>
      rw [FS.readFile_of_read? fs fn data hread] at h
      by_cases hk : fernetKeyValid t.key
      · cases hdec : fernetDecryptBytes t.key data with
        | none =>
          simp only [fernetInit, hk, if_pos, fernetDecrypt, hdec] at h
          cases h
        | some p =>
          refine ⟨p, ?_⟩
          simp only [fernetInit, hk, if_pos, fernetDecrypt, hdec] at h
          cases o with
          | none =>
            simp only [] at h
            cases h
            rfl
          | some ov =>
            by_cases hov : ov = ""
            · simp only [hov, if_pos] at h
              cases h
              rfl
            · simp only [hov, if_neg] at h
              cases h
              rfl
      · simp only [fernetInit, hk, Bool.false_eq_true, if_neg] at h
        cases h

/-! ### Helper lemmas: single loop steps and whole command runs -/

theorem encryptLoop_cons_ok (t : EncryptionTool) (n : Nat → Nat) (f root fn : String)
    (rest : List (String × String)) (fs fs1 : FS) (i : Nat) (op : String)
    (he : strEndsWith fn ".rex" = false)
    (h : t.encrypt_file (n i) fs (path_join root fn) (some (encRecOutPath f fn))
      = Except.ok (fs1, op)) :
    encryptLoop t n f ((root, fn) :: rest) fs i = encryptLoop t n f rest fs1 (i + 1) := by
  simp only [encryptLoop]
  rw [if_pos he, h]

theorem encryptLoop_cons_err (t : EncryptionTool) (n : Nat → Nat) (f root fn : String)
    (rest : List (String × String)) (fs : FS) (i : Nat) (e : PyExc)
    (he : strEndsWith fn ".rex" = false)
    (h : t.encrypt_file (n i) fs (path_join root fn) (some (encRecOutPath f fn))
      = Except.error e) :
    encryptLoop t n f ((root, fn) :: rest) fs i = ⟨fs, i, some e⟩ := by
  simp only [encryptLoop]
  rw [if_pos he, h]

theorem encryptLoop_cons_skip (t : EncryptionTool) (n : Nat → Nat) (f root fn : String)
    (rest : List (String × String)) (fs : FS) (i : Nat)
    (he : strEndsWith fn ".rex" = true) :
    encryptLoop t n f ((root, fn) :: rest) fs i = encryptLoop t n f rest fs i := by
  simp only [encryptLoop]
  rw [if_neg (fun hc => Bool.true_eq_false.mp (he.symm.trans hc))]

theorem decryptLoop_cons_ok (t : EncryptionTool) (f root fn : String)
    (rest : List (String × String)) (fs fs1 : FS) (op : String)
    (he : strEndsWith fn ".rex" = true)
    (h : t.decrypt_file fs (path_join root fn) (some (decRecOutPath f fn))
      = Except.ok (fs1, op)) :
    decryptLoop t f ((root, fn) :: rest) fs = decryptLoop t f rest fs1 := by
  simp only [decryptLoop]
  rw [if_pos he, h]

theorem decryptLoop_cons_err (t : EncryptionTool) (f root fn : String)
    (rest : List (String × String)) (fs : FS) (e : PyExc)
    (he : strEndsWith fn ".rex" = true)
    (h : t.decrypt_file fs (path_join root fn) (some (decRecOutPath f fn))
      = Except.error e) :
    decryptLoop t f ((root, fn) :: rest) fs = (fs, some e) := by
  simp only [decryptLoop]
  rw [if_pos he, h]

theorem decryptLoop_cons_skip (t : EncryptionTool) (f root fn : String)
    (rest : List (String × String)) (fs : FS)
    (he : strEndsWith fn ".rex" = false) :
    decryptLoop t f ((root, fn) :: rest) fs = decryptLoop t f rest fs := by
  simp only [decryptLoop]
  rw [if_neg (fun hc => Bool.false_ne_true (he.symm.trans hc))]

theorem encrypt_recursive_run_err (generated : String) (nonces : Nat → Nat)
    (cwd directory : String) (walk : List (String × List String))
    (fs0 fs1 fs2 : FS) (j : Nat) (e : PyExc)
    (hmk : makedirs fs0 (path_join (dirname (abspath cwd directory)) "Encrypted_data") true
      = Except.ok fs1)
    (hloop : encryptLoop (EncryptionTool.init none generated) nonces
      (path_join (dirname (abspath cwd directory)) "Encrypted_data") (walkPairs walk) fs1 0
      = ⟨fs2, j, some e⟩) :
    encrypt_recursive generated nonces cwd directory walk fs0 = (fs2, renderEncrypt e) := by
  simp only [encrypt_recursive]
  rw [hmk]
  show (match encryptLoop (EncryptionTool.init none generated) nonces
      (path_join (dirname (abspath cwd directory)) "Encrypted_data") (walkPairs walk) fs1 0 with
    | ⟨fs2, _, some e⟩ => (fs2, renderEncrypt e)
    | ⟨fs2, _, none⟩ => (fs2.write "encryption_key.key"
        (strBytes (EncryptionTool.init none generated).key), CmdOutcome.success)) = _
  rw [hloop]

theorem encrypt_recursive_run_ok (generated : String) (nonces : Nat → Nat)
    (cwd directory : String) (walk : List (String × List String))
    (fs0 fs1 fs2 : FS) (j : Nat)
    (hmk : makedirs fs0 (path_join (dirname (abspath cwd directory)) "Encrypted_data") true
      = Except.ok fs1)
    (hloop : encryptLoop (EncryptionTool.init none generated) nonces
      (path_join (dirname (abspath cwd directory)) "Encrypted_data") (walkPairs walk) fs1 0
      = ⟨fs2, j, none⟩) :
    encrypt_recursive generated nonces cwd directory walk fs0
      = (fs2.write "encryption_key.key" (strBytes (EncryptionTool.init none generated).key),
        CmdOutcome.success) := by
  simp only [encrypt_recursive]
  rw [hmk]
  show (match encryptLoop (EncryptionTool.init none generated) nonces
      (path_join (dirname (abspath cwd directory)) "Encrypted_data") (walkPairs walk) fs1 0 with
    | ⟨fs2, _, some e⟩ => (fs2, renderEncrypt e)
    | ⟨fs2, _, none⟩ => (fs2.write "encryption_key.key"
        (strBytes (EncryptionTool.init none generated).key), CmdOutcome.success)) = _
  rw [hloop]

theorem decrypt_recursive_run_err (key generated : String) (cwd directory : String)
    (walk : List (String × List String)) (fs0 fs1 fs2 : FS) (e : PyExc)
    (hmk : makedirs fs0 (path_join (dirname (abspath cwd directory)) "Decrypted_data") true
      = Except.ok fs1)
    (hloop : decryptLoop (EncryptionTool.init (some key) generated)
      (path_join (dirname (abspath cwd directory)) "Decrypted_data") (walkPairs walk) fs1
      = (fs2, some e)) :
    decrypt_recursive key generated cwd directory walk fs0 = (fs2, renderDecrypt e) := by
  simp only [decrypt_recursive]
  rw [hmk]
  show (match decryptLoop (EncryptionTool.init (some key) generated)
      (path_join (dirname (abspath cwd directory)) "Decrypted_data") (walkPairs walk) fs1 with
    | (fs2, some e) => (fs2, renderDecrypt e)
    | (fs2, none) => (fs2, CmdOutcome.success)) = _
  rw [hloop]

theorem decrypt_recursive_run_ok (key generated : String) (cwd directory : String)
    (walk : List (String × List String)) (fs0 fs1 fs2 : FS)
    (hmk : makedirs fs0 (path_join (dirname (abspath cwd directory)) "Decrypted_data") true
      = Except.ok fs1)
    (hloop : decryptLoop (EncryptionTool.init (some key) generated)
      (path_join (dirname (abspath cwd directory)) "Decrypted_data") (walkPairs walk) fs1
      = (fs2, none)) :
    decrypt_recursive key generated cwd directory walk fs0 = (fs2, CmdOutcome.success) := by
  simp only [decrypt_recursive]
  rw [hmk]
  show (match decryptLoop (EncryptionTool.init (some key) generated)
      (path_join (dirname (abspath cwd directory)) "Decrypted_data") (walkPairs walk) fs1 with
    | (fs2, some e) => (fs2, renderDecrypt e)
    | (fs2, none) => (fs2, CmdOutcome.success)) = _
  rw [hloop]

theorem read?_eq_of_files_eq (fs1 fs0 : FS) (q : String) (h : fs1.files = fs0.files) :
    fs1.read? q = fs0.read? q := by
  unfold FS.read?
  rw [h]

/-! ### Concrete values used by the witnesses -/

/-- A concrete validly generated key (44 characters of key material). -/
def key44 : String := "AAAAAAAAAAAAAAAAAAAAAAAAAAAAAAAAAAAAAAAAAAAA"

/-! ### The claims -/

/-- C1: for every byte payload `p` and every validly generated key `k`,
decrypting the result of encrypting `p` under `k` with the same key `k`
returns exactly `p`: `encrypt_file` succeeds and writes the authenticated
token for the input file's contents, and `decrypt_file` run on that output
file under the same key succeeds and writes back exactly the original
bytes. -/
theorem C1_round_trip (k : String) (hk : fernetKeyValid k = true) (nonce : Nat)
    (fs : FS) (inPath outPath decPath : String) (p : Bytes)
    (hin : fs.read? inPath = some p) (hout : outPath ≠ "") (hdec : decPath ≠ "") :
    ∃ fs1 fs2,
      EncryptionTool.encrypt_file ⟨k⟩ nonce fs inPath (some outPath)
        = Except.ok (fs1, outPath) ∧
      EncryptionTool.decrypt_file ⟨k⟩ fs1 outPath (some decPath)
        = Except.ok (fs2, decPath) ∧
      fs2.read? decPath = some p := by
  refine ⟨fs.write outPath (fernetEncryptBytes k nonce p),
    (fs.write outPath (fernetEncryptBytes k nonce p)).write decPath p, ?_, ?_, ?_⟩
  · exact encrypt_file_ok ⟨k⟩ nonce fs inPath outPath p hin hk hout
  · exact decrypt_file_ok ⟨k⟩ _ outPath decPath _ p (FS.read?_write_self fs outPath _) hk
      (fernetDecryptBytes_encryptBytes k nonce p) hdec
  · exact FS.read?_write_self _ decPath p

/-- Witness for C1 at a concrete payload, key and filesystem. -/
theorem C1_round_trip_witness :
    ∃ fs1 fs2,
      EncryptionTool.encrypt_file ⟨key44⟩ 7 (FS.mk [("doc", [10, 20])] []) "doc"
        (some "doc.rex") = Except.ok (fs1, "doc.rex") ∧
      EncryptionTool.decrypt_file ⟨key44⟩ fs1 "doc.rex" (some "out")
        = Except.ok (fs2, "out") ∧
      fs2.read? "out" = some [10, 20] :=
  C1_round_trip key44 (by decide) 7 (FS.mk [("doc", [10, 20])] []) "doc" "doc.rex" "out"
    [10, 20] (by decide) (by decide) (by decide)

/-- C3: the code distinguishes the two decrypt failure kinds by exception
type, but not as the claim states.  At a concrete input whose key material
does not decode, `decrypt_file` raises `ValueError` straight from the
`Fernet` constructor — an exception type that is neither the program's
invalid-key error (`KeyError`, per the function's own docstring) nor caught
by any boundary — while an unauthentic token raises the caught
`InvalidToken`.  The invalid-key half of the claim therefore fails on the
code. -/
theorem C3_invalid_key_raises_uncaught_value_error :
    EncryptionTool.decrypt_file ⟨"bad"⟩ (FS.mk [("f", [1, 2, 3])] []) "f" none
      = Except.error (PyExc.valueError "Fernet key must be 32 url-safe base64-encoded bytes.")
    ∧ EncryptionTool.decrypt_file ⟨key44⟩ (FS.mk [("g", [0, 0])] []) "g" none
      = Except.error (PyExc.invalidToken "Invalid key: ")
    ∧ catchesDecrypt
        (PyExc.valueError "Fernet key must be 32 url-safe base64-encoded bytes.") = false
    ∧ catchesDecrypt (PyExc.invalidToken "Invalid key: ") = true := by
  refine ⟨by decide, by decide, rfl, rfl⟩

/-- C4: not every core-raised exception is recovered at the command
boundary: running the `decrypt` command on an existing file with a malformed
key raises `ValueError`, which is not among the types its `except` clause
catches, so the exception escapes and the process crashes instead of
rendering a message. -/
theorem C4_uncaught_exception_escapes_decrypt :
    decrypt (FS.mk [("f", [1])] []) "f" none (some "bad")
      = (FS.mk [("f", [1])] [],
        CmdOutcome.crashed
          (PyExc.valueError "Fernet key must be 32 url-safe base64-encoded bytes.")) := by
  decide

/-- C5: in a recursive walk the encrypt loop processes exactly the visited
files whose names do not end in `.rex` and the decrypt loop exactly those
whose names do: each loop equals the same loop run on just its eligible
sublist, and a walk consisting only of ineligible files completes with the
filesystem untouched and no error. -/
theorem C5_eligibility :
    (∀ (tool : EncryptionTool) (nonces : Nat → Nat) (folder : String)
        (pairs : List (String × String)) (fs : FS) (i : Nat),
      encryptLoop tool nonces folder pairs fs i
        = encryptLoop tool nonces folder
            (pairs.filter (fun pr => !strEndsWith pr.2 ".rex")) fs i)
    ∧ (∀ (tool : EncryptionTool) (folder : String)
        (pairs : List (String × String)) (fs : FS),
      decryptLoop tool folder pairs fs
        = decryptLoop tool folder (pairs.filter (fun pr => strEndsWith pr.2 ".rex")) fs)
    ∧ (∀ (tool : EncryptionTool) (nonces : Nat → Nat) (folder : String)
        (pairs : List (String × String)) (fs : FS) (i : Nat),
      (∀ pr ∈ pairs, strEndsWith pr.2 ".rex" = true) →
      encryptLoop tool nonces folder pairs fs i = ⟨fs, i, none⟩)
    ∧ (∀ (tool : EncryptionTool) (folder : String)
        (pairs : List (String × String)) (fs : FS),
      (∀ pr ∈ pairs, strEndsWith pr.2 ".rex" = false) →
      decryptLoop tool folder pairs fs = (fs, none)) := by
  refine ⟨?_, ?_, ?_, ?_⟩
  · intro tool nonces folder pairs
    induction pairs with
    | nil => intro fs i; rfl
    | cons hd rest ih =>
      intro fs i
      obtain ⟨r0, f0⟩ := hd
      by_cases he : strEndsWith f0 ".rex" = false
      · rw [List.filter_cons_of_pos (by rw [he]; rfl)]
        cases henc : tool.encrypt_file (nonces i) fs (path_join r0 f0)
            (some (encRecOutPath folder f0)) with
        | error e =>
          rw [encryptLoop_cons_err tool nonces folder r0 f0 rest fs i e he henc,
            encryptLoop_cons_err tool nonces folder r0 f0 _ fs i e he henc]
        | ok pr =>
          obtain ⟨fs1, op⟩ := pr
          rw [encryptLoop_cons_ok tool nonces folder r0 f0 rest fs fs1 i op he henc,
            encryptLoop_cons_ok tool nonces folder r0 f0 _ fs fs1 i op he henc]
          exact ih fs1 (i + 1)
      · have he2 : strEndsWith f0 ".rex" = true := by
          revert he
          cases strEndsWith f0 ".rex" <;> simp
        rw [List.filter_cons_of_neg (by rw [he2]; decide)]
        rw [encryptLoop_cons_skip tool nonces folder r0 f0 rest fs i he2]
        exact ih fs i
  · intro tool folder pairs
    induction pairs with
    | nil => intro fs; rfl
    | cons hd rest ih =>
      intro fs
      obtain ⟨r0, f0⟩ := hd
      by_cases he : strEndsWith f0 ".rex" = true
      · rw [List.filter_cons_of_pos (by rw [he])]
        cases hdec : tool.decrypt_file fs (path_join r0 f0)
            (some (decRecOutPath folder f0)) with
        | error e =>
          rw [decryptLoop_cons_err tool folder r0 f0 rest fs e he hdec,
            decryptLoop_cons_err tool folder r0 f0 _ fs e he hdec]
        | ok pr =>
          obtain ⟨fs1, op⟩ := pr
          rw [decryptLoop_cons_ok tool folder r0 f0 rest fs fs1 op he hdec,
            decryptLoop_cons_ok tool folder r0 f0 _ fs fs1 op he hdec]
          exact ih fs1
      · have he2 : strEndsWith f0 ".rex" = false := by
          revert he
          cases strEndsWith f0 ".rex" <;> simp
        rw [List.filter_cons_of_neg (by rw [he2]; decide)]
        rw [decryptLoop_cons_skip tool folder r0 f0 rest fs he2]
        exact ih fs
  · intro tool nonces folder pairs
    induction pairs with
    | nil => intro fs i hall; rfl
    | cons hd rest ih =>
      intro fs i hall
      obtain ⟨r0, f0⟩ := hd
      rw [encryptLoop_cons_skip tool nonces folder r0 f0 rest fs i
        (hall (r0, f0) (List.mem_cons_self _ _))]
      exact ih fs i (fun pr hm => hall pr (List.mem_cons_of_mem _ hm))
  · intro tool folder pairs
    induction pairs with
    | nil => intro fs hall; rfl
    | cons hd rest ih =>
      intro fs hall
      obtain ⟨r0, f0⟩ := hd
      rw [decryptLoop_cons_skip tool folder r0 f0 rest fs
        (hall (r0, f0) (List.mem_cons_self _ _))]
      exact ih fs (fun pr hm => hall pr (List.mem_cons_of_mem _ hm))

/-- Witness for C5: a walk of only `.rex` files is a no-op for the encrypt
loop, and a walk of only unmarked files is a no-op for the decrypt loop. -/
theorem C5_eligibility_witness :
    encryptLoop ⟨key44⟩ (fun i => i) "/E" [("/d", "a.rex"), ("/d", "b.rex")]
        (FS.mk [] []) 0 = ⟨FS.mk [] [], 0, none⟩
    ∧ decryptLoop ⟨key44⟩ "/D" [("/d", "a.txt")] (FS.mk [] []) = (FS.mk [] [], none) :=
  ⟨C5_eligibility.2.2.1 ⟨key44⟩ (fun i => i) "/E" [("/d", "a.rex"), ("/d", "b.rex")]
      (FS.mk [] []) 0 (by decide),
    C5_eligibility.2.2.2 ⟨key44⟩ "/D" [("/d", "a.txt")] (FS.mk [] []) (by decide)⟩

/-- C2: in a recursive batch in either direction, the first per-file failure
aborts the whole batch at once: the command returns with exactly the
filesystem reached before the failing file — so the result does not depend
on the files after the failing one, every output written for an earlier
eligible file is still on disk — and in the encrypt direction the key file
is left exactly as it was, i.e. not written for that run. -/
theorem C2_batch_abort :
    (∀ (generated : String) (nonces : Nat → Nat) (cwd directory : String)
        (walk : List (String × List String)) (fs0 fs1 fsMid : FS) (j : Nat)
        (pre post : List (String × String)) (root fn : String) (e : PyExc),
      walkPairs walk = pre ++ (root, fn) :: post →
      makedirs fs0 (path_join (dirname (abspath cwd directory)) "Encrypted_data") true
        = Except.ok fs1 →
      encryptLoop (EncryptionTool.init none generated) nonces
        (path_join (dirname (abspath cwd directory)) "Encrypted_data") pre fs1 0
        = ⟨fsMid, j, none⟩ →
      strEndsWith fn ".rex" = false →
      EncryptionTool.encrypt_file (EncryptionTool.init none generated) (nonces j) fsMid
        (path_join root fn)
        (some (encRecOutPath (path_join (dirname (abspath cwd directory)) "Encrypted_data") fn))
        = Except.error e →
      encrypt_recursive generated nonces cwd directory walk fs0 = (fsMid, renderEncrypt e)
        ∧ fsMid.read? "encryption_key.key" = fs0.read? "encryption_key.key"
        ∧ ∀ pr ∈ pre, strEndsWith pr.2 ".rex" = false →
            (fsMid.read? (encRecOutPath
              (path_join (dirname (abspath cwd directory)) "Encrypted_data") pr.2)).isSome
              = true)
    ∧ (∀ (key generated : String) (cwd directory : String)
        (walk : List (String × List String)) (fs0 fs1 fsMid : FS)
        (pre post : List (String × String)) (root fn : String) (e : PyExc),
      strStartsWith (path_join (dirname (abspath cwd directory)) "Decrypted_data") "/" = true →
      walkPairs walk = pre ++ (root, fn) :: post →
      makedirs fs0 (path_join (dirname (abspath cwd directory)) "Decrypted_data") true
        = Except.ok fs1 →
      decryptLoop (EncryptionTool.init (some key) generated)
        (path_join (dirname (abspath cwd directory)) "Decrypted_data") pre fs1
        = (fsMid, none) →
      strEndsWith fn ".rex" = true →
      EncryptionTool.decrypt_file (EncryptionTool.init (some key) generated) fsMid
        (path_join root fn)
        (some (decRecOutPath (path_join (dirname (abspath cwd directory)) "Decrypted_data") fn))
        = Except.error e →
      decrypt_recursive key generated cwd directory walk fs0 = (fsMid, renderDecrypt e)
        ∧ ∀ pr ∈ pre, strEndsWith pr.2 ".rex" = true →
            (fsMid.read? (decRecOutPath
              (path_join (dirname (abspath cwd directory)) "Decrypted_data") pr.2)).isSome
              = true) := by
  constructor
  · intro generated nonces cwd directory walk fs0 fs1 fsMid j pre post root fn e
      hsplit hmk hpre helig hfail
    have hloop : encryptLoop (EncryptionTool.init none generated) nonces
        (path_join (dirname (abspath cwd directory)) "Encrypted_data") (walkPairs walk) fs1 0
        = ⟨fsMid, j, some e⟩ := by
      rw [hsplit]
      rw [encryptLoop_append_ok _ _ _ pre _ fs1 fsMid 0 j hpre]
      exact encryptLoop_cons_err _ _ _ root fn post fsMid j e helig hfail
    refine ⟨encrypt_recursive_run_err generated nonces cwd directory walk fs0 fs1 fsMid j e
      hmk hloop, ?_, ?_⟩
    · have h1 := encryptLoop_read?_preserved (EncryptionTool.init none generated) nonces
        (path_join (dirname (abspath cwd directory)) "Encrypted_data") pre fs1 0
        "encryption_key.key" (by decide)
      rw [hpre] at h1
      exact h1.trans (read?_eq_of_files_eq fs1 fs0 _ (makedirs_ok_files fs0 fs1 _ true hmk))
    · intro pr hmem hprelig
      exact encryptLoop_outputs_present (EncryptionTool.init none generated) nonces
        (path_join (dirname (abspath cwd directory)) "Encrypted_data") pre fs1 fsMid 0 j hpre
        pr.1 pr.2 hmem hprelig
  · intro key generated cwd directory walk fs0 fs1 fsMid pre post root fn e
      hDF hsplit hmk hpre helig hfail
    have hloop : decryptLoop (EncryptionTool.init (some key) generated)
        (path_join (dirname (abspath cwd directory)) "Decrypted_data") (walkPairs walk) fs1
        = (fsMid, some e) := by
      rw [hsplit]
      rw [decryptLoop_append_ok _ _ pre _ fs1 fsMid hpre]
      exact decryptLoop_cons_err _ _ root fn post fsMid e helig hfail
    refine ⟨decrypt_recursive_run_err key generated cwd directory walk fs0 fs1 fsMid e
      hmk hloop, ?_⟩
    intro pr hmem hprelig
    exact decryptLoop_outputs_present (EncryptionTool.init (some key) generated)
      (path_join (dirname (abspath cwd directory)) "Decrypted_data") pre fs1 fsMid hDF hpre
      pr.1 pr.2 hmem hprelig

/-- Witness for C2: a two-file encrypt batch whose second file is missing
stops with the first file's output on disk and no key file written, and a
two-file decrypt batch whose second file fails authentication stops with
the first file's plaintext on disk. -/
theorem C2_batch_abort_witness :
    (encrypt_recursive key44 (fun i => i) "/w" "/w/d"
        [("/w/d", ["a.txt", "missing.txt"])] (FS.mk [("/w/d/a.txt", [1])] ["/w/d"])
      = ((FS.mk [("/w/d/a.txt", [1])] ["/w/Encrypted_data", "/w/d"]).write
          "/w/Encrypted_data/a.txt.rex" (fernetEncryptBytes key44 0 [1]),
        renderEncrypt (PyExc.fileNotFoundError "File not found: /w/d/missing.txt"))
      ∧ (((FS.mk [("/w/d/a.txt", [1])] ["/w/Encrypted_data", "/w/d"]).write
          "/w/Encrypted_data/a.txt.rex"
          (fernetEncryptBytes key44 0 [1])).read? "encryption_key.key" = none
      ∧ (((FS.mk [("/w/d/a.txt", [1])] ["/w/Encrypted_data", "/w/d"]).write
          "/w/Encrypted_data/a.txt.rex"
          (fernetEncryptBytes key44 0 [1])).read? "/w/Encrypted_data/a.txt.rex").isSome
          = true))
    ∧ (decrypt_recursive key44 "" "/w" "/w/d"
        [("/w/d", ["b.txt.rex", "c.rex"])]
        (FS.mk [("/w/d/b.txt.rex", fernetEncryptBytes key44 5 [9]),
                ("/w/d/c.rex", [0, 0])] ["/w/d"])
      = ((FS.mk [("/w/d/b.txt.rex", fernetEncryptBytes key44 5 [9]),
                ("/w/d/c.rex", [0, 0])] ["/w/Decrypted_data", "/w/d"]).write
          "/w/Decrypted_data/b.txt" [9],
        renderDecrypt (PyExc.invalidToken "Invalid key: "))) := by
  have he := C2_batch_abort.1 key44 (fun i => i) "/w" "/w/d"
    [("/w/d", ["a.txt", "missing.txt"])]
    (FS.mk [("/w/d/a.txt", [1])] ["/w/d"])
    (FS.mk [("/w/d/a.txt", [1])] ["/w/Encrypted_data", "/w/d"])
    ((FS.mk [("/w/d/a.txt", [1])] ["/w/Encrypted_data", "/w/d"]).write
      "/w/Encrypted_data/a.txt.rex" (fernetEncryptBytes key44 0 [1])) 1
    [("/w/d", "a.txt")] [] "/w/d" "missing.txt"
    (PyExc.fileNotFoundError "File not found: /w/d/missing.txt")
    (by decide) (by decide) (by decide) (by decide) (by decide)
  have hd := C2_batch_abort.2 key44 "" "/w" "/w/d"
    [("/w/d", ["b.txt.rex", "c.rex"])]
    (FS.mk [("/w/d/b.txt.rex", fernetEncryptBytes key44 5 [9]),
            ("/w/d/c.rex", [0, 0])] ["/w/d"])
    (FS.mk [("/w/d/b.txt.rex", fernetEncryptBytes key44 5 [9]),
            ("/w/d/c.rex", [0, 0])] ["/w/Decrypted_data", "/w/d"])
    ((FS.mk [("/w/d/b.txt.rex", fernetEncryptBytes key44 5 [9]),
            ("/w/d/c.rex", [0, 0])] ["/w/Decrypted_data", "/w/d"]).write
      "/w/Decrypted_data/b.txt" [9])
    [("/w/d", "b.txt.rex")] [] "/w/d" "c.rex" (PyExc.invalidToken "Invalid key: ")
    (by decide) (by decide) (by decide) (by decide) (by decide) (by decide)
  exact ⟨⟨he.1, he.2.1, he.2.2 ("/w/d", "a.txt") (by decide) (by decide)⟩, hd.1⟩

theorem init_some (k g : String) (h : k ≠ "") :
    EncryptionTool.init (some k) g = ⟨k⟩ := by
  simp [EncryptionTool.init, h]

/-- C6: the generated key is persisted to `encryption_key.key` exactly once
per encrypt run and only as the final action after every file of the session
has been processed successfully: the single-file `encrypt` command appends
the one key-file entry after its file write and its file write does not
touch the key file; the recursive command appends it after the whole loop,
which itself never writes the key file; when any file fails no key file is
written; and the two decrypt flows, where the key is supplied, leave the key
file untouched. -/
theorem C6_key_persistence :
    (∀ (generated : String) (nonce : Nat) (fs fs1 : FS) (fn outP : String)
        (o : Option String),
      EncryptionTool.encrypt_file (EncryptionTool.init none generated) nonce fs fn o
        = Except.ok (fs1, outP) →
      encrypt generated nonce fs fn o
        = (fs1.write "encryption_key.key" (strBytes generated), CmdOutcome.success)
      ∧ (outP ≠ "encryption_key.key" →
          fs1.read? "encryption_key.key" = fs.read? "encryption_key.key"))
    ∧ (∀ (generated : String) (nonce : Nat) (fs : FS) (fn : String)
        (o : Option String) (e : PyExc),
      EncryptionTool.encrypt_file (EncryptionTool.init none generated) nonce fs fn o
        = Except.error e →
      (encrypt generated nonce fs fn o).1.read? "encryption_key.key"
        = fs.read? "encryption_key.key")
    ∧ (∀ (generated : String) (nonces : Nat → Nat) (cwd directory : String)
        (walk : List (String × List String)) (fs0 fs1 fs2 : FS) (j : Nat),
      makedirs fs0 (path_join (dirname (abspath cwd directory)) "Encrypted_data") true
        = Except.ok fs1 →
      encryptLoop (EncryptionTool.init none generated) nonces
        (path_join (dirname (abspath cwd directory)) "Encrypted_data") (walkPairs walk) fs1 0
        = ⟨fs2, j, none⟩ →
      encrypt_recursive generated nonces cwd directory walk fs0
        = (fs2.write "encryption_key.key" (strBytes generated), CmdOutcome.success)
      ∧ fs2.read? "encryption_key.key" = fs0.read? "encryption_key.key")
    ∧ (∀ (generated : String) (nonces : Nat → Nat) (cwd directory : String)
        (walk : List (String × List String)) (fs0 fs1 fs2 : FS) (j : Nat) (e : PyExc),
      makedirs fs0 (path_join (dirname (abspath cwd directory)) "Encrypted_data") true
        = Except.ok fs1 →
      encryptLoop (EncryptionTool.init none generated) nonces
        (path_join (dirname (abspath cwd directory)) "Encrypted_data") (walkPairs walk) fs1 0
        = ⟨fs2, j, some e⟩ →
      (encrypt_recursive generated nonces cwd directory walk fs0).1.read? "encryption_key.key"
        = fs0.read? "encryption_key.key")
    ∧ (∀ (fs : FS) (fn : String) (o keyOpt : Option String),
      (∀ (fs1 : FS) (outP k1 : String), keyOpt = some k1 →
        EncryptionTool.decrypt_file ⟨k1⟩ fs fn o = Except.ok (fs1, outP) →
        outP ≠ "encryption_key.key") →
      (decrypt fs fn o keyOpt).1.read? "encryption_key.key"
        = fs.read? "encryption_key.key")
    ∧ (∀ (key generated : String) (cwd directory : String)
        (walk : List (String × List String)) (fs0 fs1 fs2 : FS) (r : Option PyExc),
      strStartsWith (path_join (dirname (abspath cwd directory)) "Decrypted_data") "/" = true →
      makedirs fs0 (path_join (dirname (abspath cwd directory)) "Decrypted_data") true
        = Except.ok fs1 →
      decryptLoop (EncryptionTool.init (some key) generated)
        (path_join (dirname (abspath cwd directory)) "Decrypted_data") (walkPairs walk) fs1
        = (fs2, r) →
      (decrypt_recursive key generated cwd directory walk fs0).1.read? "encryption_key.key"
        = fs0.read? "encryption_key.key") := by
  refine ⟨?_, ?_, ?_, ?_, ?_, ?_⟩
  · intro generated nonce fs fs1 fn outP o h
    constructor
    · simp only [encrypt]
      rw [h]
      rfl
    · intro houtP
      obtain ⟨data, hread, hfs1⟩ := encrypt_file_ok_inv2 _ nonce fs fn o fs1 outP h
      rw [hfs1]
      exact FS.read?_write_ne fs outP "encryption_key.key" _ (Ne.symm houtP)
  · intro generated nonce fs fn o e h
    simp only [encrypt]
    rw [h]
  · intro generated nonces cwd directory walk fs0 fs1 fs2 j hmk hloop
    constructor
    · exact encrypt_recursive_run_ok generated nonces cwd directory walk fs0 fs1 fs2 j
        hmk hloop
    · have h1 := encryptLoop_read?_preserved (EncryptionTool.init none generated) nonces
        (path_join (dirname (abspath cwd directory)) "Encrypted_data") (walkPairs walk) fs1 0
        "encryption_key.key" (by decide)
      rw [hloop] at h1
      exact h1.trans (read?_eq_of_files_eq fs1 fs0 _ (makedirs_ok_files fs0 fs1 _ true hmk))
  · intro generated nonces cwd directory walk fs0 fs1 fs2 j e hmk hloop
    rw [encrypt_recursive_run_err generated nonces cwd directory walk fs0 fs1 fs2 j e
      hmk hloop]
    have h1 := encryptLoop_read?_preserved (EncryptionTool.init none generated) nonces
      (path_join (dirname (abspath cwd directory)) "Encrypted_data") (walkPairs walk) fs1 0
      "encryption_key.key" (by decide)
    rw [hloop] at h1
    exact h1.trans (read?_eq_of_files_eq fs1 fs0 _ (makedirs_ok_files fs0 fs1 _ true hmk))
  · intro fs fn o keyOpt hsafe
    cases keyOpt with
    | none => rfl
    | some k1 =>
      by_cases hk1 : k1 = ""
      · simp only [decrypt]
        rw [if_pos hk1]
      · simp only [decrypt]
        rw [if_neg hk1, init_some k1 k1 hk1]
        cases hres : EncryptionTool.decrypt_file ⟨k1⟩ fs fn o with
        | error e => rfl
        | ok pr =>
          obtain ⟨fs1, outP⟩ := pr
          obtain ⟨p, hfs1⟩ := decrypt_file_ok_inv2 ⟨k1⟩ fs fn o fs1 outP hres
          show fs1.read? "encryption_key.key" = fs.read? "encryption_key.key"
          rw [hfs1]
          exact FS.read?_write_ne fs outP "encryption_key.key" p
            (Ne.symm (hsafe fs1 outP k1 rfl hres))
  · intro key generated cwd directory walk fs0 fs1 fs2 r hDF hmk hloop
    have h1 := decryptLoop_read?_preserved (EncryptionTool.init (some key) generated)
      (path_join (dirname (abspath cwd directory)) "Decrypted_data") (walkPairs walk) fs1
      "encryption_key.key" hDF (by decide)
    rw [hloop] at h1
    have h2 := h1.trans (read?_eq_of_files_eq fs1 fs0 _ (makedirs_ok_files fs0 fs1 _ true hmk))
    cases r with
    | some e =>
      rw [decrypt_recursive_run_err key generated cwd directory walk fs0 fs1 fs2 e hmk hloop]
      exact h2
    | none =>
      rw [decrypt_recursive_run_ok key generated cwd directory walk fs0 fs1 fs2 hmk hloop]
      exact h2

/-- Witness for C6: one concrete instance of each conjunct — a single-file
encrypt writing the key file last, a failing single-file encrypt writing no
key file, a recursive encrypt over an empty walk persisting the key once, a
failing recursive encrypt leaving no key file, and decrypt flows leaving the
key file untouched. -/
theorem C6_key_persistence_witness :
    encrypt key44 3 (FS.mk [("f", [5])] []) "f" none
      = (((FS.mk [("f", [5])] []).write "f.rex" (fernetEncryptBytes key44 3 [5])).write
          "encryption_key.key" (strBytes key44), CmdOutcome.success)
    ∧ (encrypt key44 3 (FS.mk [] []) "g" none).1.read? "encryption_key.key" = none
    ∧ encrypt_recursive key44 (fun i => i) "/w" "/w/d" [] (FS.mk [] ["/w/d"])
      = ((FS.mk [] ["/w/Encrypted_data", "/w/d"]).write "encryption_key.key"
          (strBytes key44), CmdOutcome.success)
    ∧ (encrypt_recursive key44 (fun i => i) "/w" "/w/d" [("/w/d", ["gone.txt"])]
        (FS.mk [] ["/w/d"])).1.read? "encryption_key.key" = none
    ∧ (decrypt (FS.mk [("h.rex", fernetEncryptBytes key44 2 [7])] []) "h.rex" none
        (some key44)).1.read? "encryption_key.key" = none
    ∧ (decrypt_recursive key44 "" "/w" "/w/d" [("/w/d", ["h.rex"])]
        (FS.mk [("/w/d/h.rex", fernetEncryptBytes key44 2 [7])] ["/w/d"])).1.read?
        "encryption_key.key" = none := by
  refine ⟨?_, ?_, ?_, ?_, ?_, ?_⟩
  · exact (C6_key_persistence.1 key44 3 (FS.mk [("f", [5])] [])
      ((FS.mk [("f", [5])] []).write "f.rex" (fernetEncryptBytes key44 3 [5])) "f" "f.rex"
      none (by decide)).1
  · exact C6_key_persistence.2.1 key44 3 (FS.mk [] []) "g" none
      (PyExc.fileNotFoundError "File not found: g") (by decide)
  · exact (C6_key_persistence.2.2.1 key44 (fun i => i) "/w" "/w/d" [] (FS.mk [] ["/w/d"])
      (FS.mk [] ["/w/Encrypted_data", "/w/d"]) (FS.mk [] ["/w/Encrypted_data", "/w/d"]) 0
      (by decide) (by decide)).1
  · exact C6_key_persistence.2.2.2.1 key44 (fun i => i) "/w" "/w/d" [("/w/d", ["gone.txt"])]
      (FS.mk [] ["/w/d"]) (FS.mk [] ["/w/Encrypted_data", "/w/d"])
      (FS.mk [] ["/w/Encrypted_data", "/w/d"]) 0
      (PyExc.fileNotFoundError "File not found: /w/d/gone.txt") (by decide) (by decide)
  · refine C6_key_persistence.2.2.2.2.1 (FS.mk [("h.rex", fernetEncryptBytes key44 2 [7])] [])
      "h.rex" none (some key44) ?_
    intro fs1 outP k1 hk hres
    rw [show k1 = key44 from (Option.some.inj hk).symm] at hres
    have hcomp : EncryptionTool.decrypt_file ⟨key44⟩
        (FS.mk [("h.rex", fernetEncryptBytes key44 2 [7])] []) "h.rex" none
        = Except.ok
          ((FS.mk [("h.rex", fernetEncryptBytes key44 2 [7])] []).write "h" [7], "h") := by
      decide
    rw [hcomp] at hres
    have hpair : ((FS.mk [("h.rex", fernetEncryptBytes key44 2 [7])] []).write "h" [7], "h")
        = (fs1, outP) := Except.ok.inj hres
    have houtP : outP = "h" := (congrArg Prod.snd hpair).symm
    rw [houtP]
    decide
  · exact C6_key_persistence.2.2.2.2.2 key44 "" "/w" "/w/d" [("/w/d", ["h.rex"])]
      (FS.mk [("/w/d/h.rex", fernetEncryptBytes key44 2 [7])] ["/w/d"])
      (FS.mk [("/w/d/h.rex", fernetEncryptBytes key44 2 [7])] ["/w/Decrypted_data", "/w/d"])
      ((FS.mk [("/w/d/h.rex", fernetEncryptBytes key44 2 [7])]
        ["/w/Decrypted_data", "/w/d"]).write "/w/Decrypted_data/h" [7]) none
      (by decide) (by decide) (by decide)

/-- C7: with no explicit output path, `encrypt_file` writes to the input
path with `.rex` appended, and `decrypt_file` writes to the input path with
the trailing extension stripped at the last extension separator — so a file
`s` (whose last character is an ordinary one, neither `/` nor `.`) encrypts
to `s ++ ".rex"` and the file named `s ++ ".rex"` decrypts to exactly `s`. -/
theorem C7_default_output_paths (k s : String) (c : Char) (nonce : Nat) (fs : FS)
    (p cbytes q : Bytes)
    (hk : fernetKeyValid k = true)
    (hlast : s.data[s.data.length - 1]? = some c) (hc1 : c ≠ '/') (hc2 : c ≠ '.')
    (hin : fs.read? s = some p)
    (hrex : fs.read? (s ++ ".rex") = some cbytes)
    (hdec : fernetDecryptBytes k cbytes = some q) :
    EncryptionTool.encrypt_file ⟨k⟩ nonce fs s none
      = Except.ok (fs.write (s ++ ".rex") (fernetEncryptBytes k nonce p), s ++ ".rex")
    ∧ EncryptionTool.decrypt_file ⟨k⟩ fs (s ++ ".rex") none
      = Except.ok (fs.write s q, s) := by
  constructor
  · exact encrypt_file_none_ok ⟨k⟩ nonce fs s p hin hk
  · have hsp := splitext_append_rex s c hlast hc1 hc2
    have h := decrypt_file_none_ok ⟨k⟩ fs (s ++ ".rex") cbytes q hrex hk hdec
    rw [hsp] at h
    exact h

/-- Witness for C7: `report.doc` encrypts to `report.doc.rex`, and
`report.doc.rex` decrypts back to `report.doc`. -/
theorem C7_default_output_paths_witness :
    EncryptionTool.encrypt_file ⟨key44⟩ 3
        (FS.mk [("report.doc", [1, 2]),
          ("report.doc" ++ ".rex", fernetEncryptBytes key44 9 [4])] []) "report.doc" none
      = Except.ok ((FS.mk [("report.doc", [1, 2]),
          ("report.doc" ++ ".rex", fernetEncryptBytes key44 9 [4])] []).write
            ("report.doc" ++ ".rex") (fernetEncryptBytes key44 3 [1, 2]),
          "report.doc" ++ ".rex")
    ∧ EncryptionTool.decrypt_file ⟨key44⟩
        (FS.mk [("report.doc", [1, 2]),
          ("report.doc" ++ ".rex", fernetEncryptBytes key44 9 [4])] [])
        ("report.doc" ++ ".rex") none
      = Except.ok ((FS.mk [("report.doc", [1, 2]),
          ("report.doc" ++ ".rex", fernetEncryptBytes key44 9 [4])] []).write
            "report.doc" [4], "report.doc") :=
  C7_default_output_paths key44 "report.doc" 'c' 3
    (FS.mk [("report.doc", [1, 2]),
      ("report.doc" ++ ".rex", fernetEncryptBytes key44 9 [4])] [])
    [1, 2] (fernetEncryptBytes key44 9 [4]) [4]
    (by decide) (by decide) (by decide) (by decide) (by decide) (by decide) (by decide)

/-- C8 counterexample: the claim says the destination directory is created
as a sibling of the source directory's parent.  At working directory `/w`
with source directory `/a/b/src` the code computes `/a/b/Encrypted_data`,
whose parent is `/a/b` — the source directory's parent itself, not the
parent's parent `/a` — so the destination is not a sibling of the source
directory's parent. -/
theorem C8_counterexample :
    dirname (path_join (dirname (abspath "/w" "/a/b/src")) "Encrypted_data")
      ≠ dirname (dirname (abspath "/w" "/a/b/src")) := by
  decide

/-- C8 amended: the destination directory (`Encrypted_data` for encrypt,
`Decrypted_data` for decrypt) is created as a sibling of the source
directory itself — a direct child of the source directory's parent — and its
creation is idempotent: `makedirs` with `exist_ok` succeeds, and running it
again on the resulting filesystem succeeds without error and without
change. -/
theorem C8_dest_dir_sibling_idempotent (cwd directory : String)
    (hd1 : (dirname (abspath cwd directory)).data.any (fun c => decide (c ≠ '/')) = true)
    (hd2 : strEndsWith (dirname (abspath cwd directory)) "/" = false) :
    dirname (path_join (dirname (abspath cwd directory)) "Encrypted_data")
      = dirname (abspath cwd directory)
    ∧ dirname (path_join (dirname (abspath cwd directory)) "Decrypted_data")
      = dirname (abspath cwd directory)
    ∧ (∀ (fs : FS) (p : String), ∃ fs', makedirs fs p true = Except.ok fs'
        ∧ makedirs fs' p true = Except.ok fs') := by
  refine ⟨dirname_path_join _ "Encrypted_data" (by decide) hd1 hd2,
    dirname_path_join _ "Decrypted_data" (by decide) hd1 hd2, ?_⟩
  intro fs p
  obtain ⟨fs', hmk, hfiles, hdir⟩ := makedirs_existOk_ok fs p
  exact ⟨fs', hmk, makedirs_idem fs' p hdir⟩

/-- Witness for C8: concrete placement next to `/a/b/src`, and idempotent
creation of a concrete directory. -/
theorem C8_dest_dir_witness :
    dirname (path_join (dirname (abspath "/w" "/a/b/src")) "Encrypted_data")
      = dirname (abspath "/w" "/a/b/src")
    ∧ dirname (path_join (dirname (abspath "/w" "/a/b/src")) "Decrypted_data")
      = dirname (abspath "/w" "/a/b/src")
    ∧ ∃ fs', makedirs (FS.mk [] []) "/q" true = Except.ok fs'
        ∧ makedirs fs' "/q" true = Except.ok fs' := by
  have h := C8_dest_dir_sibling_idempotent "/w" "/a/b/src" (by decide) (by decide)
  exact ⟨h.1, h.2.1, h.2.2 (FS.mk [] []) "/q"⟩

/-- C9: each eligible file's output path is computed from its base name
only, flattened into the destination directory: a one-file loop step behaves
identically for the same file name under two different roots that hold the
same bytes (the source subdirectory plays no role beyond supplying the
bytes), and the decrypt output for a name `b ++ ".rex"` is the destination
directory joined with just `b` (marker removed, no subdirectory
reproduced). -/
theorem C9_flattened_output (tool : EncryptionTool) (nonces : Nat → Nat)
    (F r1 r2 fn : String) (fs : FS) (i : Nat) (data : Bytes)
    (h1 : fs.read? (path_join r1 fn) = some data)
    (h2 : fs.read? (path_join r2 fn) = some data)
    (ho : decRecOutPath F fn ≠ "") :
    encryptLoop tool nonces F [(r1, fn)] fs i = encryptLoop tool nonces F [(r2, fn)] fs i
    ∧ decryptLoop tool F [(r1, fn)] fs = decryptLoop tool F [(r2, fn)] fs
    ∧ (∀ b : String, decRecOutPath F (b ++ ".rex") = path_join F b) := by
  refine ⟨?_, ?_, ?_⟩
  · by_cases he : strEndsWith fn ".rex" = false
    · cases hk : fernetKeyValid tool.key with
      | true =>
        rw [encryptLoop_cons_ok tool nonces F r1 fn [] fs _ i _ he
            (encrypt_file_ok tool (nonces i) fs (path_join r1 fn) (encRecOutPath F fn)
              data h1 hk (encOut_ne_empty F fn)),
          encryptLoop_cons_ok tool nonces F r2 fn [] fs _ i _ he
            (encrypt_file_ok tool (nonces i) fs (path_join r2 fn) (encRecOutPath F fn)
              data h2 hk (encOut_ne_empty F fn))]
      | false =>
        rw [encryptLoop_cons_err tool nonces F r1 fn [] fs i _ he
            (encrypt_file_invalid_key tool (nonces i) fs (path_join r1 fn) _ data h1 hk),
          encryptLoop_cons_err tool nonces F r2 fn [] fs i _ he
            (encrypt_file_invalid_key tool (nonces i) fs (path_join r2 fn) _ data h2 hk)]
    · have he2 : strEndsWith fn ".rex" = true := by
        revert he
        cases strEndsWith fn ".rex" <;> simp
      rw [encryptLoop_cons_skip tool nonces F r1 fn [] fs i he2,
        encryptLoop_cons_skip tool nonces F r2 fn [] fs i he2]
  · by_cases he : strEndsWith fn ".rex" = true
    · cases hk : fernetKeyValid tool.key with
      | true =>
        cases hdb : fernetDecryptBytes tool.key data with
        | some q =>
          rw [decryptLoop_cons_ok tool F r1 fn [] fs _ _ he
              (decrypt_file_ok tool fs (path_join r1 fn) (decRecOutPath F fn)
                data q h1 hk hdb ho),
            decryptLoop_cons_ok tool F r2 fn [] fs _ _ he
              (decrypt_file_ok tool fs (path_join r2 fn) (decRecOutPath F fn)
                data q h2 hk hdb ho)]
        | none =>
          rw [decryptLoop_cons_err tool F r1 fn [] fs _ he
              (decrypt_file_auth_fail tool fs (path_join r1 fn) _ data h1 hk hdb),
            decryptLoop_cons_err tool F r2 fn [] fs _ he
              (decrypt_file_auth_fail tool fs (path_join r2 fn) _ data h2 hk hdb)]
      | false =>
        rw [decryptLoop_cons_err tool F r1 fn [] fs _ he
            (decrypt_file_invalid_key tool fs (path_join r1 fn) _ data h1 hk),
          decryptLoop_cons_err tool F r2 fn [] fs _ he
            (decrypt_file_invalid_key tool fs (path_join r2 fn) _ data h2 hk)]
    · have he2 : strEndsWith fn ".rex" = false := by
        revert he
        cases strEndsWith fn ".rex" <;> simp
      rw [decryptLoop_cons_skip tool F r1 fn [] fs he2,
        decryptLoop_cons_skip tool F r2 fn [] fs he2]
  · intro b
    show path_join F (strDropLast (b ++ ".rex") 4) = path_join F b
    rw [strDropLast_append_rex]

/-- Witness for C9: the same base name under two different subdirectories
with equal contents gives identical loop behaviour, and a `.rex` name maps
to the destination joined with the bare name. -/
theorem C9_flattened_output_witness :
    encryptLoop ⟨key44⟩ (fun i => i) "/E" [("d1", "a.txt")]
        (FS.mk [("d1/a.txt", [3]), ("d2/a.txt", [3])] []) 0
      = encryptLoop ⟨key44⟩ (fun i => i) "/E" [("d2", "a.txt")]
        (FS.mk [("d1/a.txt", [3]), ("d2/a.txt", [3])] []) 0
    ∧ decryptLoop ⟨key44⟩ "/E" [("d1", "a.txt")]
        (FS.mk [("d1/a.txt", [3]), ("d2/a.txt", [3])] [])
      = decryptLoop ⟨key44⟩ "/E" [("d2", "a.txt")]
        (FS.mk [("d1/a.txt", [3]), ("d2/a.txt", [3])] [])
    ∧ decRecOutPath "/E" ("b" ++ ".rex") = path_join "/E" "b" := by
  have h := C9_flattened_output ⟨key44⟩ (fun i => i) "/E" "d1" "d2" "a.txt"
    (FS.mk [("d1/a.txt", [3]), ("d2/a.txt", [3])] []) 0 [3]
    (by decide) (by decide) (by decide)
  exact ⟨h.1, h.2.1, h.2.2 "b"⟩

/-- C10: two eligible files with the same base name in different
subdirectories are both mapped to the identical output path inside the
destination directory, so the batch succeeds in full while the file
processed second overwrites the first one's output: the final filesystem
holds the second file's ciphertext at the shared path. -/
theorem C10_name_collision (generated : String) (nonces : Nat → Nat)
    (cwd directory r1 r2 fn : String) (fs0 fs1 : FS) (p1 p2 : Bytes)
    (hk : fernetKeyValid generated = true)
    (helig : strEndsWith fn ".rex" = false)
    (hmk : makedirs fs0 (path_join (dirname (abspath cwd directory)) "Encrypted_data") true
      = Except.ok fs1)
    (hread1 : fs1.read? (path_join r1 fn) = some p1)
    (hread2 : fs1.read? (path_join r2 fn) = some p2)
    (hne : path_join r2 fn
      ≠ encRecOutPath (path_join (dirname (abspath cwd directory)) "Encrypted_data") fn) :
    encrypt_recursive generated nonces cwd directory [(r1, [fn]), (r2, [fn])] fs0
      = (((fs1.write
          (encRecOutPath (path_join (dirname (abspath cwd directory)) "Encrypted_data") fn)
          (fernetEncryptBytes generated (nonces 0) p1)).write
          (encRecOutPath (path_join (dirname (abspath cwd directory)) "Encrypted_data") fn)
          (fernetEncryptBytes generated (nonces 1) p2)).write "encryption_key.key"
          (strBytes generated),
        CmdOutcome.success)
    ∧ ((((fs1.write
          (encRecOutPath (path_join (dirname (abspath cwd directory)) "Encrypted_data") fn)
          (fernetEncryptBytes generated (nonces 0) p1)).write
          (encRecOutPath (path_join (dirname (abspath cwd directory)) "Encrypted_data") fn)
          (fernetEncryptBytes generated (nonces 1) p2)).write "encryption_key.key"
          (strBytes generated)).read?
        (encRecOutPath (path_join (dirname (abspath cwd directory)) "Encrypted_data") fn))
      = some (fernetEncryptBytes generated (nonces 1) p2) := by
  have hread2mid : (fs1.write
      (encRecOutPath (path_join (dirname (abspath cwd directory)) "Encrypted_data") fn)
      (fernetEncryptBytes generated (nonces 0) p1)).read? (path_join r2 fn) = some p2 := by
    rw [FS.read?_write_ne fs1 _ _ _ hne]
    exact hread2
  have henc1 : EncryptionTool.encrypt_file (EncryptionTool.init none generated) (nonces 0) fs1
      (path_join r1 fn)
      (some (encRecOutPath (path_join (dirname (abspath cwd directory)) "Encrypted_data") fn))
      = Except.ok (fs1.write
          (encRecOutPath (path_join (dirname (abspath cwd directory)) "Encrypted_data") fn)
          (fernetEncryptBytes generated (nonces 0) p1),
        encRecOutPath (path_join (dirname (abspath cwd directory)) "Encrypted_data") fn) :=
    encrypt_file_ok (EncryptionTool.init none generated) (nonces 0) fs1 (path_join r1 fn) _
      p1 hread1 hk (encOut_ne_empty _ fn)
  have henc2 : EncryptionTool.encrypt_file (EncryptionTool.init none generated) (nonces 1)
      (fs1.write (encRecOutPath (path_join (dirname (abspath cwd directory)) "Encrypted_data") fn)
        (fernetEncryptBytes generated (nonces 0) p1))
      (path_join r2 fn)
      (some (encRecOutPath (path_join (dirname (abspath cwd directory)) "Encrypted_data") fn))
      = Except.ok ((fs1.write
          (encRecOutPath (path_join (dirname (abspath cwd directory)) "Encrypted_data") fn)
          (fernetEncryptBytes generated (nonces 0) p1)).write
          (encRecOutPath (path_join (dirname (abspath cwd directory)) "Encrypted_data") fn)
          (fernetEncryptBytes generated (nonces 1) p2),
        encRecOutPath (path_join (dirname (abspath cwd directory)) "Encrypted_data") fn) :=
    encrypt_file_ok (EncryptionTool.init none generated) (nonces 1) _ (path_join r2 fn) _
      p2 hread2mid hk (encOut_ne_empty _ fn)
  have hstep1 : encryptLoop (EncryptionTool.init none generated) nonces
      (path_join (dirname (abspath cwd directory)) "Encrypted_data")
      [(r1, fn), (r2, fn)] fs1 0
      = encryptLoop (EncryptionTool.init none generated) nonces
        (path_join (dirname (abspath cwd directory)) "Encrypted_data") [(r2, fn)]
        (fs1.write (encRecOutPath (path_join (dirname (abspath cwd directory)) "Encrypted_data") fn)
          (fernetEncryptBytes generated (nonces 0) p1)) 1 :=
    encryptLoop_cons_ok (EncryptionTool.init none generated) nonces _ r1 fn [(r2, fn)] fs1 _
      0 _ helig henc1
  have hstep2 : encryptLoop (EncryptionTool.init none generated) nonces
      (path_join (dirname (abspath cwd directory)) "Encrypted_data") [(r2, fn)]
      (fs1.write (encRecOutPath (path_join (dirname (abspath cwd directory)) "Encrypted_data") fn)
        (fernetEncryptBytes generated (nonces 0) p1)) 1
      = ⟨(fs1.write
          (encRecOutPath (path_join (dirname (abspath cwd directory)) "Encrypted_data") fn)
          (fernetEncryptBytes generated (nonces 0) p1)).write
          (encRecOutPath (path_join (dirname (abspath cwd directory)) "Encrypted_data") fn)
          (fernetEncryptBytes generated (nonces 1) p2), 2, none⟩ :=
    encryptLoop_cons_ok (EncryptionTool.init none generated) nonces _ r2 fn [] _ _ 1 _
      helig henc2
  have hloop : encryptLoop (EncryptionTool.init none generated) nonces
      (path_join (dirname (abspath cwd directory)) "Encrypted_data")
      (walkPairs [(r1, [fn]), (r2, [fn])]) fs1 0
      = ⟨(fs1.write
          (encRecOutPath (path_join (dirname (abspath cwd directory)) "Encrypted_data") fn)
          (fernetEncryptBytes generated (nonces 0) p1)).write
          (encRecOutPath (path_join (dirname (abspath cwd directory)) "Encrypted_data") fn)
          (fernetEncryptBytes generated (nonces 1) p2), 2, none⟩ :=
    hstep1.trans hstep2
  constructor
  · exact encrypt_recursive_run_ok generated nonces cwd directory _ fs0 fs1 _ 2 hmk hloop
  · rw [FS.read?_write_ne _ "encryption_key.key" _ _
      (Ne.symm (ne_of_endsWith_rex _ "encryption_key.key"
        (encOut_endsWith_rex _ fn) (by decide)))]
    exact FS.read?_write_self _ _ _

/-- Witness for C10: `s1/a.txt` and `s2/a.txt` under one source tree both
land on `Encrypted_data/a.txt.rex`; the run reports success and the shared
output holds the second file's ciphertext. -/
theorem C10_name_collision_witness :
    encrypt_recursive key44 (fun i => i) "/w" "/w/d"
        [("/w/d/s1", ["a.txt"]), ("/w/d/s2", ["a.txt"])]
        (FS.mk [("/w/d/s1/a.txt", [1]), ("/w/d/s2/a.txt", [2])] ["/w/d"])
      = ((((FS.mk [("/w/d/s1/a.txt", [1]), ("/w/d/s2/a.txt", [2])]
            ["/w/Encrypted_data", "/w/d"]).write
            "/w/Encrypted_data/a.txt.rex" (fernetEncryptBytes key44 0 [1])).write
            "/w/Encrypted_data/a.txt.rex" (fernetEncryptBytes key44 1 [2])).write
            "encryption_key.key" (strBytes key44),
        CmdOutcome.success)
    ∧ (((((FS.mk [("/w/d/s1/a.txt", [1]), ("/w/d/s2/a.txt", [2])]
            ["/w/Encrypted_data", "/w/d"]).write
            "/w/Encrypted_data/a.txt.rex" (fernetEncryptBytes key44 0 [1])).write
            "/w/Encrypted_data/a.txt.rex" (fernetEncryptBytes key44 1 [2])).write
            "encryption_key.key" (strBytes key44)).read? "/w/Encrypted_data/a.txt.rex")
      = some (fernetEncryptBytes key44 1 [2]) := by
  have h := C10_name_collision key44 (fun i => i) "/w" "/w/d" "/w/d/s1" "/w/d/s2" "a.txt"
    (FS.mk [("/w/d/s1/a.txt", [1]), ("/w/d/s2/a.txt", [2])] ["/w/d"])
    (FS.mk [("/w/d/s1/a.txt", [1]), ("/w/d/s2/a.txt", [2])] ["/w/Encrypted_data", "/w/d"])
    [1] [2] (by decide) (by decide) (by decide) (by decide) (by decide) (by decide)
  exact h

end PyLocky
